import Mathlib

/-!
Shallow embedding of the texture-combination engine of `texture_stacker`
(`src/processing.rs`, `src/lib.rs`, with the helper `suffix_from_filename`
taken from the repository's `src/main.rs` copy, where it is defined).

Modelling conventions:
* Machine integers (`u8` bytes, `u32` dimensions, `usize` indices) are `Nat`.
  No arithmetic in the modelled code can overflow `u32`/`usize` for inputs that
  the PNG decoder can produce, and bytes are only compared and copied.
* Rust panics (`panic!`, `assert!`, `expect`, index-out-of-bounds, integer
  division by zero) are modelled as `Except.error` values of type `PErr`.
* File I/O is modelled by an explicit association list `fs` from file names to
  already-decoded `RawImage`s (the PNG codec is an external collaborator);
  written files are collected in an output log instead of touching a disk.
* Log messages are side effects; only warnings (`log_warn!`) are tracked,
  as inductive `LogWarn` values carrying the file name they mention.
  Warnings accumulated before a fatal error are not tracked.
* Paths are plain strings joined with `'/'`; the Windows separator `'\'` and
  `PathBuf` corner cases (`".."`/`"."`/empty components, absolute pushes) are
  outside the model, and theorems about paths carry hypotheses keeping the
  relevant strings inside the modelled fragment.
-/

namespace TextureStacker

/-- `png::ColorType` of the `png` crate (the decoder can produce any of these). -/
inductive ColorType where
  | Grayscale
  | Rgb
  | Indexed
  | GrayscaleAlpha
  | Rgba
deriving DecidableEq

/-- `png::BitDepth` of the `png` crate. -/
inductive BitDepth where
  | One
  | Two
  | Four
  | Eight
  | Sixteen
deriving DecidableEq

/-- `ImageFormat` struct of `processing.rs`. -/
structure ImageFormat where
  width : Nat
  height : Nat
  color_type : ColorType
  bit_depth : BitDepth
deriving DecidableEq

/-- `RawImage` struct of `processing.rs`: a flat byte buffer plus its format. -/
structure RawImage where
  data : List Nat
  format : ImageFormat
deriving DecidableEq

/-- `Pixel` struct of `processing.rs`: an (r, g, b, a) quadruple of bytes. -/
structure Pixel where
  r : Nat
  g : Nat
  b : Nat
  a : Nat
deriving DecidableEq

/-- Modelled fatal conditions: each constructor corresponds to one `panic!`,
`assert!`/`assert_eq!`, slice-index or division failure site in the source. -/
inductive PErr where
  | formatNotSupported
  | indexOutOfBounds
  | divisionByZero
  | assertFailed
  | readFailed (file : String)
  | maskNeedsAlpha (file : String)
  | zeroSized (file : String)
  | resolutionMismatch (file : String) (input : Nat × Nat) (working : Nat × Nat)
  | bitDepthMismatch (file : String) (input : BitDepth) (output : BitDepth)
  | colorTypeUnsupported (file : String) (ct : ColorType)
deriving DecidableEq

/-- Modelled non-fatal warnings (`log_warn!` calls of `combine_texture_sets`). -/
inductive LogWarn where
  | unexpectedAlpha (file : String)
deriving DecidableEq

/-- `calc_pixel_stride` of `processing.rs` (bytes per pixel;
panics on unsupported formats). -/
def calc_pixel_stride (format : ImageFormat) : Except PErr Nat :=
  match format.bit_depth, format.color_type with
  | BitDepth.Eight, ColorType.Rgb => .ok 3
  | BitDepth.Eight, ColorType.Rgba => .ok 4
  | BitDepth.Sixteen, ColorType.Rgb => .ok 6
  | BitDepth.Sixteen, ColorType.Rgba => .ok 8
  | _, _ => .error .formatNotSupported

/-- `bytes_to_pixel` of `processing.rs`: reads the pixel starting at byte
offset `off` of `data` (Rust passes the subslice `&data[off..]`).
The format is matched first, so a 16-bit or otherwise unsupported format
fails with a format error regardless of the slice. -/
def bytes_to_pixel (data : List Nat) (off : Nat) (format : ImageFormat) :
    Except PErr Pixel :=
  match format.bit_depth, format.color_type with
  | BitDepth.Eight, ColorType.Rgb =>
    match data[off]?, data[off + 1]?, data[off + 2]? with
    | some r, some g, some b => .ok ⟨r, g, b, 255⟩
    | _, _, _ => .error .indexOutOfBounds
  | BitDepth.Eight, ColorType.Rgba =>
    match data[off]?, data[off + 1]?, data[off + 2]?, data[off + 3]? with
    | some r, some g, some b, some a => .ok ⟨r, g, b, a⟩
    | _, _, _, _ => .error .indexOutOfBounds
  | _, _ => .error .formatNotSupported

/-- `pixel_to_bytes` of `processing.rs`: writes the byte representation of
`pixel` at byte offset `off` of `slice` (Rust passes `&mut slice[off..]`),
dropping alpha when the format is RGB. The format is matched first. -/
def pixel_to_bytes (pixel : Pixel) (format : ImageFormat) (slice : List Nat)
    (off : Nat) : Except PErr (List Nat) :=
  match format.bit_depth, format.color_type with
  | BitDepth.Eight, ColorType.Rgb =>
    if off + 2 < slice.length then
      .ok (((slice.set off pixel.r).set (off + 1) pixel.g).set (off + 2) pixel.b)
    else .error .indexOutOfBounds
  | BitDepth.Eight, ColorType.Rgba =>
    if off + 3 < slice.length then
      .ok ((((slice.set off pixel.r).set (off + 1) pixel.g).set
              (off + 2) pixel.b).set (off + 3) pixel.a)
    else .error .indexOutOfBounds
  | _, _ => .error .formatNotSupported

/-- Loop body of `create_mask_from_alpha_channel`: builds the mask entries for
pixels `i, i+1, ..., i+fuel-1` (`fuel` counts the remaining iterations of
`for i in 0..num_pixels`). -/
def maskLoop (data : List Nat) (stride : Nat) (format : ImageFormat) :
    Nat → Nat → Except PErr (List Bool)
  | _, 0 => .ok []
  | i, fuel + 1 =>
    match bytes_to_pixel data (i * stride) format with
    | .error e => .error e
    | .ok px =>
      match maskLoop data stride format (i + 1) fuel with
      | .error e => .error e
      | .ok rest => .ok ((px.a != 0) :: rest)

/-- `create_mask_from_alpha_channel` of `processing.rs`. -/
def create_mask_from_alpha_channel (image : RawImage) : Except PErr (List Bool) :=
  if image.format.color_type ≠ ColorType.Rgba then .error .assertFailed
  else
    match calc_pixel_stride image.format with
    | .error e => .error e
    | .ok pixel_stride =>
      let num_pixels := image.format.width * image.format.height
      if image.data.length ≠ num_pixels * pixel_stride then .error .assertFailed
      else maskLoop image.data pixel_stride image.format 0 num_pixels

/-- Loop body of `copy_image_masked` (`for i in 0..num_pixels`): converts the
pixels `i, ..., i+fuel-1` from `src` into `dst` where the mask is true.
`ss`/`ds` are the source/destination strides computed by the caller. -/
def copyLoopMasked (src : List Nat) (sfmt dfmt : ImageFormat) (ss ds : Nat)
    (mask : List Bool) : List Nat → Nat → Nat → Except PErr (List Nat)
  | dst, _, 0 => .ok dst
  | dst, i, fuel + 1 =>
    match mask[i]? with
    | none => .error .indexOutOfBounds
    | some b =>
      if b then
        match bytes_to_pixel src (i * ss) sfmt with
        | .error e => .error e
        | .ok px =>
          match pixel_to_bytes px dfmt dst (i * ds) with
          | .error e => .error e
          | .ok dst' => copyLoopMasked src sfmt dfmt ss ds mask dst' (i + 1) fuel
      else copyLoopMasked src sfmt dfmt ss ds mask dst (i + 1) fuel

/-- `copy_image_masked` of `processing.rs`. The destination buffer is threaded
functionally: the returned image is the mutated `dest_image`. -/
def copy_image_masked (source_image dest_image : RawImage) (mask : List Bool) :
    Except PErr RawImage :=
  if (source_image.format.width, source_image.format.height) ≠
      (dest_image.format.width, dest_image.format.height) then .error .assertFailed
  else
    let num_pixels := source_image.format.width * source_image.format.height
    if num_pixels = 0 then .error .divisionByZero
    else
      let source_stride := source_image.data.length / num_pixels
      let dest_stride := dest_image.data.length / num_pixels
      if mask.length ≠ num_pixels then .error .assertFailed
      else
        match copyLoopMasked source_image.data source_image.format
            dest_image.format source_stride dest_stride mask
            dest_image.data 0 num_pixels with
        | .error e => .error e
        | .ok d => .ok ⟨d, dest_image.format⟩

/-- Loop body of the slow path of `copy_image`: converts every pixel
`i, ..., i+fuel-1` from `src` into `dst`. -/
def copyLoopConv (src : List Nat) (sfmt dfmt : ImageFormat) (ss ds : Nat) :
    List Nat → Nat → Nat → Except PErr (List Nat)
  | dst, _, 0 => .ok dst
  | dst, i, fuel + 1 =>
    match bytes_to_pixel src (i * ss) sfmt with
    | .error e => .error e
    | .ok px =>
      match pixel_to_bytes px dfmt dst (i * ds) with
      | .error e => .error e
      | .ok dst' => copyLoopConv src sfmt dfmt ss ds dst' (i + 1) fuel

/-- `copy_image` of `processing.rs`: bytewise copy when the formats are
identical, otherwise a per-pixel decode/encode conversion. -/
def copy_image (source_image dest_image : RawImage) : Except PErr RawImage :=
  if source_image.format = dest_image.format then
    if source_image.data.length ≠ dest_image.data.length then .error .assertFailed
    else .ok ⟨source_image.data, dest_image.format⟩
  else
    if (source_image.format.width, source_image.format.height) ≠
        (dest_image.format.width, dest_image.format.height) then .error .assertFailed
    else
      let num_pixels := source_image.format.width * source_image.format.height
      if num_pixels = 0 then .error .divisionByZero
      else
        let source_stride := source_image.data.length / num_pixels
        let dest_stride := dest_image.data.length / num_pixels
        match copyLoopConv source_image.data source_image.format
            dest_image.format source_stride dest_stride
            dest_image.data 0 num_pixels with
        | .error e => .error e
        | .ok d => .ok ⟨d, dest_image.format⟩

/-- `InputTextureSet` struct: a base name plus one optional file per suffix. -/
structure InputTextureSet where
  name : String
  textures : List (Option String)
deriving DecidableEq

/-- `ProcessConfig` struct of `processing.rs` (paths as plain strings). -/
structure ProcessConfig where
  keep_mask_alpha : Bool
  suffixes : List String
  output_masks : Bool
  output_directory : String
  output_texture_name : String
deriving DecidableEq

/-- The modelled file system: file name to decoded image. -/
def lookupFile (fs : List (String × RawImage)) (name : String) : Option RawImage :=
  match fs.find? (fun e => e.1 == name) with
  | some e => some e.2
  | none => none

/-- `read_image_from_file` of `processing.rs`, against the modelled file
system. Decoding failures are the `none` case (the animated-PNG check is
subsumed: the model holds only still images). -/
def read_image_from_file (fs : List (String × RawImage)) (file_name : String) :
    Except PErr RawImage :=
  match lookupFile fs file_name with
  | some img => .ok img
  | none => .error (.readFailed file_name)

/-- Splits a character list at the LAST occurrence of `c`: returns the parts
before and after that occurrence (the occurrence itself removed), or `none`
when `c` does not occur. Models `str::rfind` based splitting. -/
def rsplitOnce (c : Char) : List Char → Option (List Char × List Char)
  | [] => none
  | x :: xs =>
    match rsplitOnce c xs with
    | some (pre, suf) => some (x :: pre, suf)
    | none => if x = c then some ([], xs) else none

/-- The final component of a path (`std::path::Path::file_name`), for paths
without trailing separators; `'\'` separators are outside the model. -/
def fileNameOf (path : String) : List Char :=
  match rsplitOnce '/' path.data with
  | some (_, name) => name
  | none => path.data

/-- Splits a nonempty file name into `(stem, extension)` the way
`Path::file_stem`/`Path::extension` do: the extension is the part after the
last `'.'` that is not the leading character. -/
def splitStemExt : List Char → List Char × Option (List Char)
  | [] => ([], none)
  | h :: t =>
    match rsplitOnce '.' t with
    | some (pre, suf) => (h :: pre, some suf)
    | none => (h :: t, none)

/-- `Path::file_stem` (as used on directory entries and listing paths). -/
def file_stem (path : String) : Option String :=
  match fileNameOf path with
  | [] => none
  | h :: t => some (String.mk (splitStemExt (h :: t)).1)

/-- `Path::extension`. -/
def path_extension (path : String) : Option String :=
  match fileNameOf path with
  | [] => none
  | h :: t => ((splitStemExt (h :: t)).2).map String.mk

/-- `PathBuf::set_extension("png")` on a plain file name: replaces the
extension if there is one, else appends `".png"`. -/
def set_extension_png (f : String) : String :=
  String.mk ((splitStemExt f.data).1 ++ '.' :: ['p', 'n', 'g'])

/-- Decimal digits of `n`, most significant first (fuel-driven so that it is
structurally recursive; `fuel ≥ 1` suffices since `n / 10 < n`). Models the
`{}` formatting of a `usize`. -/
def natDigitsAux : Nat → Nat → List Char → List Char
  | 0, _, acc => acc
  | fuel + 1, n, acc =>
    let d := Char.ofNat (48 + n % 10)
    if n < 10 then d :: acc
    else natDigitsAux fuel (n / 10) (d :: acc)

/-- Decimal representation of a `Nat` as a string. -/
def natToStr (n : Nat) : String :=
  String.mk (natDigitsAux (n + 1) n [])

/-- The output path built at the end of each suffix iteration of
`combine_texture_sets`: push `output_directory`, push
`output_texture_name ++ suffix`, then `set_extension("png")`. -/
def mk_output_path (dir name suffix : String) : String :=
  dir ++ "/" ++ set_extension_png (name ++ suffix)

/-- The debug mask dump path: `format!("{}/mask{}.png", dir, i)`. -/
def mk_mask_path (dir : String) (i : Nat) : String :=
  dir ++ "/mask" ++ natToStr i ++ ".png"

/-- The format validation block of `combine_texture_sets` (the branch taken
when the output image already exists): fatal on resolution or bit-depth
mismatch; channel mismatches as per the `match` on the color-type pair.
Returns the warning to log, if any. -/
def validate_format (keep_mask_alpha : Bool) (is_mask_source : Bool)
    (file : String) (format output_format : ImageFormat) :
    Except PErr (Option LogWarn) :=
  if (format.width, format.height) ≠ (output_format.width, output_format.height) then
    .error (.resolutionMismatch file (format.width, format.height)
      (output_format.width, output_format.height))
  else if format.bit_depth ≠ output_format.bit_depth then
    .error (.bitDepthMismatch file format.bit_depth output_format.bit_depth)
  else if format.color_type ≠ output_format.color_type then
    match format.color_type, output_format.color_type with
    | ColorType.Rgb, ColorType.Rgba => .ok none
    | ColorType.Rgba, ColorType.Rgb =>
      if is_mask_source && !keep_mask_alpha then .ok none
      else .ok (some (.unexpectedAlpha file))
    | _, _ => .error (.colorTypeUnsupported file format.color_type)
  else .ok none

/-- The output-image creation block of `combine_texture_sets` (the branch
taken when no output image exists yet): the first contributing layer's format,
with the color type forced to RGB for the mask-source suffix when
`keep_mask_alpha` is off, and a zeroed buffer of the matching size. -/
def createOutput (keep_mask_alpha : Bool) (is_mask_source : Bool)
    (format : ImageFormat) : Except PErr RawImage :=
  let output_format :=
    if is_mask_source && !keep_mask_alpha then
      { format with color_type := ColorType.Rgb }
    else format
  match calc_pixel_stride output_format with
  | .error e => .error e
  | .ok stride =>
    .ok ⟨List.replicate (format.width * format.height * stride) 0, output_format⟩

/-- State of the inner per-set loop of `combine_texture_sets`:
the output image so far, the `first` flag, and the warnings logged. -/
structure CombState where
  output : Option RawImage
  first : Bool
  warns : List LogWarn
deriving DecidableEq

/-- One iteration of the inner per-set loop of `combine_texture_sets` for
suffix index `suffix_index`: skip if the set has no layer for this suffix,
else decode, validate or create the output, then copy (unmasked for the first
contributing layer, masked with the set's own mask afterwards). -/
def combineSetStep (fs : List (String × RawImage)) (keep_mask_alpha : Bool)
    (suffix_index : Nat) (item : InputTextureSet × List Bool) (st : CombState) :
    Except PErr CombState :=
  match item.1.textures[suffix_index]? with
  | none => .error .indexOutOfBounds
  | some none => .ok st
  | some (some texture_filename) =>
    match read_image_from_file fs texture_filename with
    | .error e => .error e
    | .ok image =>
      let is_mask_source := suffix_index == 0
      let vres : Except PErr (RawImage × List LogWarn) :=
        match st.output with
        | some raw_output_image =>
          match validate_format keep_mask_alpha is_mask_source texture_filename
              image.format raw_output_image.format with
          | .error e => .error e
          | .ok none => .ok (raw_output_image, st.warns)
          | .ok (some w) => .ok (raw_output_image, st.warns ++ [w])
        | none =>
          match createOutput keep_mask_alpha is_mask_source image.format with
          | .error e => .error e
          | .ok out => .ok (out, st.warns)
      match vres with
      | .error e => .error e
      | .ok (out, warns) =>
        if st.first then
          match copy_image image out with
          | .error e => .error e
          | .ok out2 => .ok ⟨some out2, false, warns⟩
        else
          match copy_image_masked image out item.2 with
          | .error e => .error e
          | .ok out2 => .ok ⟨some out2, st.first, warns⟩

/-- The inner per-set loop of `combine_texture_sets` over the zipped list of
texture sets and their masks. -/
def combineSuffixLoop (fs : List (String × RawImage)) (keep_mask_alpha : Bool)
    (suffix_index : Nat) :
    List (InputTextureSet × List Bool) → CombState → Except PErr CombState
  | [], st => .ok st
  | item :: rest, st =>
    match combineSetStep fs keep_mask_alpha suffix_index item st with
    | .error e => .error e
    | .ok st' => combineSuffixLoop fs keep_mask_alpha suffix_index rest st'

/-- The mask-computation loop of `combine_texture_sets` (its first `for`):
decode each set's mask-source layer, require an alpha channel and a nonzero
size, establish or check `working_res`, and build the pixel mask.
Returns the masks in set order plus the final working resolution. -/
def maskPhase (fs : List (String × RawImage)) :
    List InputTextureSet → Nat × Nat → Except PErr (List (List Bool) × (Nat × Nat))
  | [], working_res => .ok ([], working_res)
  | input_set :: rest, working_res =>
    match input_set.textures[0]? with
    | some (some file_name) =>
      match read_image_from_file fs file_name with
      | .error e => .error e
      | .ok image =>
        let image_size := (image.format.width, image.format.height)
        if image.format.color_type ≠ ColorType.Rgba then
          .error (.maskNeedsAlpha file_name)
        else if image_size = (0, 0) then .error (.zeroSized file_name)
        else
          let checkRes : Except PErr (Nat × Nat) :=
            if working_res = (0, 0) then .ok image_size
            else if image_size ≠ working_res then
              .error (.resolutionMismatch file_name image_size working_res)
            else .ok working_res
          match checkRes with
          | .error e => .error e
          | .ok working' =>
            match create_mask_from_alpha_channel image with
            | .error e => .error e
            | .ok mask =>
              match maskPhase fs rest working' with
              | .error e => .error e
              | .ok (masks, w) => .ok (mask :: masks, w)
    | _ => .error .assertFailed

/-- Loop body of the debug mask-dump rendering (`for i in 0..num_pixels`):
white opaque where the mask is true, black opaque where it is false. -/
def renderMaskLoop (mask : List Bool) (format : ImageFormat) (stride : Nat) :
    List Nat → Nat → Nat → Except PErr (List Nat)
  | buffer, _, 0 => .ok buffer
  | buffer, i, fuel + 1 =>
    match mask[i]? with
    | none => .error .indexOutOfBounds
    | some b =>
      let pixel : Pixel := if b then ⟨255, 255, 255, 255⟩ else ⟨0, 0, 0, 255⟩
      match pixel_to_bytes pixel format buffer (i * stride) with
      | .error e => .error e
      | .ok buffer' => renderMaskLoop mask format stride buffer' (i + 1) fuel

/-- Renders one debug mask image (the body of the `output_masks` loop). -/
def renderMask (working_res : Nat × Nat) (mask : List Bool) :
    Except PErr RawImage :=
  let num_pixels := mask.length
  let format : ImageFormat := ⟨working_res.1, working_res.2, ColorType.Rgba, BitDepth.Eight⟩
  match calc_pixel_stride format with
  | .error e => .error e
  | .ok stride =>
    match renderMaskLoop mask format stride (List.replicate (num_pixels * stride) 0) 0 num_pixels with
    | .error e => .error e
    | .ok buffer => .ok ⟨buffer, format⟩

/-- The `output_masks` debug-dump loop: one `mask<i>.png` output per set, in
set order. A failed file write is logged and skipped in the source; the model
has no I/O failures, so every rendered mask is emitted. -/
def maskDumpLoop (dir : String) (working_res : Nat × Nat) :
    List (List Bool) → Nat → Except PErr (List (String × RawImage))
  | [], _ => .ok []
  | mask :: rest, i =>
    match renderMask working_res mask with
    | .error e => .error e
    | .ok img =>
      match maskDumpLoop dir working_res rest (i + 1) with
      | .error e => .error e
      | .ok outs => .ok ((mk_mask_path dir i, img) :: outs)

/-- The outer per-suffix loop of `combine_texture_sets`: for each suffix run
the per-set loop from a fresh state and write the output image if one was
produced. Returns the written files in order, the warnings, and the fatal
error (if any) that stopped the loop. -/
def suffixLoop (fs : List (String × RawImage)) (config : ProcessConfig)
    (items : List (InputTextureSet × List Bool)) :
    List String → Nat →
    List (String × RawImage) × List LogWarn × Option PErr
  | [], _ => ([], [], none)
  | suffix :: rest, suffix_index =>
    match combineSuffixLoop fs config.keep_mask_alpha suffix_index items
        ⟨none, true, []⟩ with
    | .error e => ([], [], some e)
    | .ok st =>
      let outs : List (String × RawImage) :=
        match st.output with
        | some image =>
          [(mk_output_path config.output_directory config.output_texture_name
              suffix, image)]
        | none => []
      match suffixLoop fs config items rest (suffix_index + 1) with
      | (outs', warns', err') => (outs ++ outs', st.warns ++ warns', err')

/-- The `assert!` block at the top of `combine_texture_sets`. -/
def checkAssumptions (input_sets : List InputTextureSet) : Bool :=
  input_sets.all fun s =>
    match s.textures with
    | some _ :: _ => true
    | _ => false

/-- Result of a modelled run: the files written (in order), the warnings
logged, and the fatal error that aborted the run, if any. -/
structure RunResult where
  outputs : List (String × RawImage)
  warnings : List LogWarn
  error : Option PErr
deriving DecidableEq

/-- `combine_texture_sets` of `processing.rs`: assumptions check, mask
computation for every set, optional debug mask dumps, then the per-suffix
compositing loop. -/
def combine_texture_sets (fs : List (String × RawImage))
    (input_sets : List InputTextureSet) (config : ProcessConfig) : RunResult :=
  if checkAssumptions input_sets then
    match maskPhase fs input_sets (0, 0) with
    | .error e => ⟨[], [], some e⟩
    | .ok (set_masks, working_res) =>
      match
        (if config.output_masks then
          maskDumpLoop config.output_directory working_res set_masks 0
        else .ok []) with
      | .error e => ⟨[], [], some e⟩
      | .ok dumps =>
        match suffixLoop fs config (input_sets.zip set_masks)
            config.suffixes 0 with
        | (outs, warns, err) => ⟨dumps ++ outs, warns, err⟩
  else ⟨[], [], some .assertFailed⟩

/-- `suffix_from_filename` (defined in the repository's `main.rs` copy and
used by `lib.rs`): the file stem from its last underscore on, underscore
included. -/
def suffix_from_filename (filename : String) : Option String :=
  match file_stem filename with
  | none => none
  | some stem =>
    match rsplitOnce '_' stem.data with
    | none => none
    | some (_, suf) => some (String.mk ('_' :: suf))

/-- The per-entry grouping key of `collect_and_group_files_by_name`: entries
whose extension is not exactly `"png"`, or whose stem has no underscore, get
no key and are skipped; otherwise the key is the stem up to (excluding) its
last underscore. -/
def keyOf (path : String) : Option String :=
  if path_extension path ≠ some "png" then none
  else
    match file_stem path with
    | none => none
    | some stem =>
      match rsplitOnce '_' stem.data with
      | none => none
      | some (pre, _) => some (String.mk pre)

/-- Insertion into the `BTreeMap<String, Vec<String>>` modelled as a
key-sorted association list: append to an existing key's vector, or insert a
fresh singleton at the sorted position. -/
def btreeInsertAppend (k : String) (v : String) :
    List (String × List String) → List (String × List String)
  | [] => [(k, [v])]
  | (k', vs) :: rest =>
    if k = k' then (k', vs ++ [v]) :: rest
    else if k < k' then (k, [v]) :: (k', vs) :: rest
    else (k', vs) :: btreeInsertAppend k v rest

/-- `collect_and_group_files_by_name` of `lib.rs`, over a directory listing
given as a list of entry paths (in arbitrary file-system order). -/
def collect_and_group_files_by_name (entries : List String) :
    List (String × List String) :=
  entries.foldl
    (fun map path =>
      match keyOf path with
      | none => map
      | some pre => btreeInsertAppend pre path map)
    []

/-- `gather_texture_sets_from_directory` of `lib.rs`: one `InputTextureSet`
per base name in sorted key order, slot `i` holding the first file of the
group whose suffix token equals `suffixes[i]`. -/
def gather_texture_sets_from_directory (entries : List String)
    (suffixes : List String) : List InputTextureSet :=
  (collect_and_group_files_by_name entries).map fun kv =>
    { name := kv.1,
      textures := suffixes.map fun suffix =>
        kv.2.find? fun filename =>
          decide (suffix_from_filename filename = some suffix) }

/-! ### General helper lemmas -/

theorem list_set_self {α : Type _} (l : List α) (i : Nat) (a : α)
    (h : l[i]? = some a) : l.set i a = l := by
  induction l generalizing i with
  | nil => simp at h
  | cons x xs ih =>
    cases i with
    | zero =>
      simp only [List.getElem?_cons_zero, Option.some.injEq] at h
      simp [List.set, h]
    | succ n =>
      simp only [List.getElem?_cons_succ] at h
      simp [List.set, ih n h]

theorem getElem?_eq_some_of_lt {α : Type _} (l : List α) (i : Nat)
    (h : i < l.length) : ∃ a, l[i]? = some a :=
  ⟨l[i], List.getElem?_eq_getElem h⟩

/-! ### 16-bit formats are rejected by the pixel-level codec -/

theorem bytes_to_pixel_sixteen (data : List Nat) (off : Nat)
    (format : ImageFormat) (h : format.bit_depth = BitDepth.Sixteen) :
    bytes_to_pixel data off format = .error .formatNotSupported := by
  unfold bytes_to_pixel
  rw [h]

theorem pixel_to_bytes_sixteen (pixel : Pixel) (format : ImageFormat)
    (slice : List Nat) (off : Nat) (h : format.bit_depth = BitDepth.Sixteen) :
    pixel_to_bytes pixel format slice off = .error .formatNotSupported := by
  unfold pixel_to_bytes
  rw [h]

theorem lt_length_of_getElem?_eq_some {α : Type _} {l : List α} {i : Nat}
    {a : α} (h : l[i]? = some a) : i < l.length := by
  by_contra hb
  push_neg at hb
  rw [List.getElem?_eq_none hb] at h
  exact Option.noConfusion h

theorem copyLoopMasked_sixteen (src : List Nat) (sfmt dfmt : ImageFormat)
    (ss ds : Nat) (mask : List Bool) (hs : sfmt.bit_depth = BitDepth.Sixteen) :
    ∀ (fuel i : Nat) (dst : List Nat) (j : Nat), i ≤ j → j < i + fuel →
      mask[j]? = some true →
      copyLoopMasked src sfmt dfmt ss ds mask dst i fuel =
        .error .formatNotSupported
  | 0, i, _, j, hij, hjf, _ => absurd hjf (by omega)
  | fuel + 1, i, dst, j, hij, hjf, hmj => by
    unfold copyLoopMasked
    by_cases heq : i = j
    · have hmi : mask[i]? = some true := by rw [heq]; exact hmj
      rw [hmi]
      simp [bytes_to_pixel_sixteen src (i * ss) sfmt hs]
    · have hjlen : j < mask.length := lt_length_of_getElem?_eq_some hmj
      have hilen : i < mask.length := by omega
      obtain ⟨b, hb⟩ := getElem?_eq_some_of_lt mask i hilen
      rw [hb]
      cases b with
      | true => simp [bytes_to_pixel_sixteen src (i * ss) sfmt hs]
      | false =>
        simp only [Bool.false_eq_true, if_false]
        exact copyLoopMasked_sixteen src sfmt dfmt ss ds mask hs fuel (i + 1)
          dst j (by omega) (by omega) hmj

theorem copyLoopConv_sixteen (src : List Nat) (sfmt dfmt : ImageFormat)
    (ss ds : Nat) (dst : List Nat) (i fuel : Nat) (hfuel : 0 < fuel)
    (hs : sfmt.bit_depth = BitDepth.Sixteen) :
    copyLoopConv src sfmt dfmt ss ds dst i fuel = .error .formatNotSupported := by
  cases fuel with
  | zero => omega
  | succ f =>
    unfold copyLoopConv
    simp [bytes_to_pixel_sixteen src (i * ss) sfmt hs]

/-! ### Claim C9 -/

/-- Claim C9: for an (8-bit, RGBA) format, decoding the four bytes at any
in-bounds pixel offset and re-encoding the resulting pixel at the same offset
of the same buffer writes back exactly the original four bytes: decode
composed with encode is the identity on matching (8-bit, RGBA) format. -/
theorem c9_decode_encode_identity (data : List Nat) (off : Nat)
    (format : ImageFormat) (hct : format.color_type = ColorType.Rgba)
    (hbd : format.bit_depth = BitDepth.Eight) (hb : off + 3 < data.length) :
    ∃ p, bytes_to_pixel data off format = .ok p ∧
      pixel_to_bytes p format data off = .ok data := by
  obtain ⟨r, hr⟩ := getElem?_eq_some_of_lt data off (by omega)
  obtain ⟨g, hg⟩ := getElem?_eq_some_of_lt data (off + 1) (by omega)
  obtain ⟨b, hb2⟩ := getElem?_eq_some_of_lt data (off + 2) (by omega)
  obtain ⟨a, ha⟩ := getElem?_eq_some_of_lt data (off + 3) (by omega)
  refine ⟨⟨r, g, b, a⟩, ?_, ?_⟩
  · unfold bytes_to_pixel
    rw [hbd, hct, hr, hg, hb2, ha]
  · unfold pixel_to_bytes
    rw [hbd, hct]
    rw [if_pos hb]
    rw [list_set_self data off r hr, list_set_self data (off + 1) g hg,
      list_set_self data (off + 2) b hb2, list_set_self data (off + 3) a ha]

/-- Witness for C9 at a concrete buffer and offset. -/
theorem c9_decode_encode_identity_witness :
    ∃ p, bytes_to_pixel [10, 20, 30, 40, 50, 60, 70, 0] 4
        ⟨2, 1, ColorType.Rgba, BitDepth.Eight⟩ = .ok p ∧
      pixel_to_bytes p ⟨2, 1, ColorType.Rgba, BitDepth.Eight⟩
        [10, 20, 30, 40, 50, 60, 70, 0] 4 =
        .ok [10, 20, 30, 40, 50, 60, 70, 0] :=
  c9_decode_encode_identity [10, 20, 30, 40, 50, 60, 70, 0] 4
    ⟨2, 1, ColorType.Rgba, BitDepth.Eight⟩ rfl rfl (by decide)

/-! ### Claim C5 -/

/-- Claim C5 (amended): pixel-level read or write of a 16-bit image always
fails with a fatal format error; consequently compositing a 16-bit layer
through any per-pixel path — an unmasked copy into an output of a different
format, or a masked copy with at least one true mask bit — is rejected as a
fatal format error. (The unamended claim's further assertion, that an
(RGB, 16-bit) layer can never reach an output file, is refuted by
`c5_sixteen_bit_pixel_access_counterexample`: a first contributing layer whose
format is bit-identical to the output is copied bytewise.) -/
theorem c5_sixteen_bit_pixel_access :
    (∀ (data : List Nat) (off : Nat) (format : ImageFormat),
      format.bit_depth = BitDepth.Sixteen →
      bytes_to_pixel data off format = .error .formatNotSupported) ∧
    (∀ (pixel : Pixel) (format : ImageFormat) (slice : List Nat) (off : Nat),
      format.bit_depth = BitDepth.Sixteen →
      pixel_to_bytes pixel format slice off = .error .formatNotSupported) ∧
    (∀ src dst : RawImage, src.format.bit_depth = BitDepth.Sixteen →
      src.format ≠ dst.format →
      (src.format.width, src.format.height) = (dst.format.width, dst.format.height) →
      0 < src.format.width * src.format.height →
      copy_image src dst = .error .formatNotSupported) ∧
    (∀ (src dst : RawImage) (mask : List Bool) (j : Nat),
      src.format.bit_depth = BitDepth.Sixteen →
      (src.format.width, src.format.height) = (dst.format.width, dst.format.height) →
      0 < src.format.width * src.format.height →
      mask.length = src.format.width * src.format.height →
      mask[j]? = some true →
      copy_image_masked src dst mask = .error .formatNotSupported) := by
  refine ⟨fun data off format h => bytes_to_pixel_sixteen data off format h,
    fun pixel format slice off h => pixel_to_bytes_sixteen pixel format slice off h,
    fun src dst h16 hne hdim hn => ?_, fun src dst mask j h16 hdim hn hmask hj => ?_⟩
  · have hloop : copyLoopConv src.data src.format dst.format
        (src.data.length / (src.format.width * src.format.height))
        (dst.data.length / (src.format.width * src.format.height))
        dst.data 0 (src.format.width * src.format.height) =
        .error .formatNotSupported :=
      copyLoopConv_sixteen _ _ _ _ _ _ 0 _ hn h16
    unfold copy_image
    rw [if_neg hne, if_neg (by simp only [hdim, ne_eq, not_true_eq_false,
      not_false_eq_true])]
    rw [if_neg (by omega)]
    simp only [hloop]
  · have hloop : copyLoopMasked src.data src.format dst.format
        (src.data.length / (src.format.width * src.format.height))
        (dst.data.length / (src.format.width * src.format.height))
        mask dst.data 0 (src.format.width * src.format.height) =
        .error .formatNotSupported :=
      copyLoopMasked_sixteen src.data src.format dst.format _ _ mask h16
        (src.format.width * src.format.height) 0 dst.data j (by omega)
        (by
          have := lt_length_of_getElem?_eq_some hj
          omega) hj
    unfold copy_image_masked
    rw [if_neg (by simp only [hdim, ne_eq, not_true_eq_false, not_false_eq_true])]
    rw [if_neg (by omega), if_neg (by omega)]
    simp only [hloop]

/-- Witness for the amended C5 at concrete 16-bit images. -/
theorem c5_sixteen_bit_pixel_access_witness :
    bytes_to_pixel [0, 0, 0, 0, 0, 0] 0 ⟨1, 1, ColorType.Rgb, BitDepth.Sixteen⟩ =
      .error .formatNotSupported ∧
    copy_image ⟨[0, 0, 0, 0, 0, 0, 0, 0], ⟨1, 1, ColorType.Rgba, BitDepth.Sixteen⟩⟩
        ⟨[0, 0, 0, 0, 0, 0], ⟨1, 1, ColorType.Rgb, BitDepth.Sixteen⟩⟩ =
      .error .formatNotSupported ∧
    copy_image_masked ⟨[1, 2, 3, 4, 5, 6], ⟨1, 1, ColorType.Rgb, BitDepth.Sixteen⟩⟩
        ⟨[0, 0, 0, 0, 0, 0], ⟨1, 1, ColorType.Rgb, BitDepth.Sixteen⟩⟩ [true] =
      .error .formatNotSupported :=
  ⟨c5_sixteen_bit_pixel_access.1 _ _ _ rfl,
    c5_sixteen_bit_pixel_access.2.2.1 _ _ rfl (by decide) rfl (by decide),
    c5_sixteen_bit_pixel_access.2.2.2 _ _ _ 0 rfl rfl (by decide) rfl rfl⟩

/-- A one-set input whose suffix-1 layer is (RGB, 16-bit); the mask source is
a plain (RGBA, 8-bit) pixel with alpha 0. -/
def fsSixteen : List (String × RawImage) :=
  [("m.png", ⟨[9, 9, 9, 0], ⟨1, 1, ColorType.Rgba, BitDepth.Eight⟩⟩),
   ("d.png", ⟨[1, 2, 3, 4, 5, 6], ⟨1, 1, ColorType.Rgb, BitDepth.Sixteen⟩⟩)]

/-- The single texture set for the C5 counterexample. -/
def setsSixteen : List InputTextureSet := [⟨"m", [some "m.png", some "d.png"]⟩]

/-- The configuration for the C5 counterexample. -/
def cfgSixteen : ProcessConfig := ⟨false, ["_D", "_N"], false, "out", "Output"⟩

/-- Counterexample to C5 as stated: compositing the (RGB, 16-bit) layer
`d.png` is NOT rejected — the run finishes without a fatal error and writes
`out/Output_N.png` whose format is (RGB, 16-bit), because the first
contributing layer of a suffix whose format is bit-identical to the output is
copied bytewise, never touching the pixel-level codec. -/
theorem c5_sixteen_bit_pixel_access_counterexample :
    (combine_texture_sets fsSixteen setsSixteen cfgSixteen).error = none ∧
    (combine_texture_sets fsSixteen setsSixteen cfgSixteen).outputs.map Prod.fst =
      ["out/Output_D.png", "out/Output_N.png"] ∧
    ((combine_texture_sets fsSixteen setsSixteen cfgSixteen).outputs.map
        fun o => o.2.format) =
      [⟨1, 1, ColorType.Rgb, BitDepth.Eight⟩,
       ⟨1, 1, ColorType.Rgb, BitDepth.Sixteen⟩] :=
  ⟨rfl, rfl, rfl⟩

/-! ### Claim C2 -/

theorem maskLoop_spec (data : List Nat) (format : ImageFormat)
    (hct : format.color_type = ColorType.Rgba)
    (hbd : format.bit_depth = BitDepth.Eight) :
    ∀ (fuel i : Nat), (i + fuel) * 4 ≤ data.length →
      ∃ m, maskLoop data 4 format i fuel = .ok m ∧ m.length = fuel ∧
        ∀ j, j < fuel →
          ∃ a, data[(i + j) * 4 + 3]? = some a ∧ m[j]? = some (a != 0)
  | 0, i, _ => ⟨[], rfl, rfl, fun j hj => absurd hj (by omega)⟩
  | fuel + 1, i, hlen => by
    obtain ⟨r, hr⟩ := getElem?_eq_some_of_lt data (i * 4) (by omega)
    obtain ⟨g, hg⟩ := getElem?_eq_some_of_lt data (i * 4 + 1) (by omega)
    obtain ⟨b, hb⟩ := getElem?_eq_some_of_lt data (i * 4 + 2) (by omega)
    obtain ⟨a, ha⟩ := getElem?_eq_some_of_lt data (i * 4 + 3) (by omega)
    have hdec : bytes_to_pixel data (i * 4) format = .ok ⟨r, g, b, a⟩ := by
      unfold bytes_to_pixel
      rw [hbd, hct, hr, hg, hb, ha]
    obtain ⟨m, hm, hmlen, hj⟩ :=
      maskLoop_spec data format hct hbd fuel (i + 1) (by omega)
    refine ⟨(a != 0) :: m, ?_, by simp [hmlen], ?_⟩
    · unfold maskLoop
      rw [hdec, hm]
    · intro j hjlt
      cases j with
      | zero => exact ⟨a, by simpa using ha, by simp⟩
      | succ k =>
        obtain ⟨a', ha', hm'⟩ := hj k (by omega)
        refine ⟨a', ?_, by simpa using hm'⟩
        have harith : (i + 1 + k) = (i + (k + 1)) := by omega
        rw [harith] at ha'
        exact ha'

theorem create_mask_spec (image : RawImage)
    (hct : image.format.color_type = ColorType.Rgba)
    (hbd : image.format.bit_depth = BitDepth.Eight)
    (hlen : image.data.length = image.format.width * image.format.height * 4) :
    ∃ m, create_mask_from_alpha_channel image = .ok m ∧
      m.length = image.format.width * image.format.height ∧
      ∀ i, i < image.format.width * image.format.height →
        ∃ a, image.data[i * 4 + 3]? = some a ∧ m[i]? = some (a != 0) := by
  have hstride : calc_pixel_stride image.format = .ok 4 := by
    unfold calc_pixel_stride
    rw [hbd, hct]
  obtain ⟨m, hm, hmlen, hj⟩ := maskLoop_spec image.data image.format hct hbd
    (image.format.width * image.format.height) 0 (by omega)
  refine ⟨m, ?_, hmlen, ?_⟩
  · unfold create_mask_from_alpha_channel
    rw [if_neg (by simp [hct])]
    simp only [hstride]
    rw [if_neg (by omega)]
    exact hm
  · intro i hi
    obtain ⟨a, ha, hmi⟩ := hj i hi
    exact ⟨a, by simpa using ha, hmi⟩

/-- Claim C2: for every decoded 8-bit RGBA mask-source image, mask building
produces one boolean per pixel in row-major order, and entry `i` is true iff
the alpha byte of pixel `i` (byte `4 i + 3`) is nonzero, independent of every
other pixel. -/
theorem c2_mask_pointwise (image : RawImage)
    (hct : image.format.color_type = ColorType.Rgba)
    (hbd : image.format.bit_depth = BitDepth.Eight)
    (hlen : image.data.length = image.format.width * image.format.height * 4) :
    ∃ m, create_mask_from_alpha_channel image = .ok m ∧
      m.length = image.format.width * image.format.height ∧
      ∀ i, i < image.format.width * image.format.height →
        ∃ a, image.data[i * 4 + 3]? = some a ∧ m[i]? = some (a != 0) :=
  create_mask_spec image hct hbd hlen

/-- Witness for C2 at a concrete 2-by-1 RGBA image with alphas 0 and 7. -/
theorem c2_mask_pointwise_witness :
    ∃ m, create_mask_from_alpha_channel
        ⟨[1, 2, 3, 0, 4, 5, 6, 7], ⟨2, 1, ColorType.Rgba, BitDepth.Eight⟩⟩ =
        .ok m ∧ m.length = 2 ∧
      ∀ i, i < 2 →
        ∃ a, ([1, 2, 3, 0, 4, 5, 6, 7] : List Nat)[i * 4 + 3]? = some a ∧
          m[i]? = some (a != 0) :=
  c2_mask_pointwise ⟨[1, 2, 3, 0, 4, 5, 6, 7], ⟨2, 1, ColorType.Rgba, BitDepth.Eight⟩⟩
    rfl rfl rfl

/-! ### Claim C4 -/

/-- Claim C4: with resolutions and bit depths matching, the channel-layout
reconciliation of `combine_texture_sets` behaves exactly as specified:
RGB into RGBA is accepted silently; RGBA into RGB at the mask-source suffix
(`suffix_index = 0`) with `keep_mask_alpha` off is accepted silently; every
other RGBA-into-RGB case is accepted with a non-fatal warning naming the
file; any other differing channel combination is a fatal format error. -/
theorem c4_channel_reconciliation (keep_mask_alpha : Bool) (suffix_index : Nat)
    (file : String) (format output_format : ImageFormat)
    (hsize : (format.width, format.height) = (output_format.width, output_format.height))
    (hdepth : format.bit_depth = output_format.bit_depth) :
    (format.color_type = ColorType.Rgb → output_format.color_type = ColorType.Rgba →
      validate_format keep_mask_alpha (suffix_index == 0) file format output_format =
        .ok none) ∧
    (format.color_type = ColorType.Rgba → output_format.color_type = ColorType.Rgb →
      suffix_index = 0 → keep_mask_alpha = false →
      validate_format keep_mask_alpha (suffix_index == 0) file format output_format =
        .ok none) ∧
    (format.color_type = ColorType.Rgba → output_format.color_type = ColorType.Rgb →
      ¬(suffix_index = 0 ∧ keep_mask_alpha = false) →
      validate_format keep_mask_alpha (suffix_index == 0) file format output_format =
        .ok (some (.unexpectedAlpha file))) ∧
    (format.color_type ≠ output_format.color_type →
      ¬(format.color_type = ColorType.Rgb ∧ output_format.color_type = ColorType.Rgba) →
      ¬(format.color_type = ColorType.Rgba ∧ output_format.color_type = ColorType.Rgb) →
      validate_format keep_mask_alpha (suffix_index == 0) file format output_format =
        .error (.colorTypeUnsupported file format.color_type)) := by
  have hsz : ¬((format.width, format.height) ≠ (output_format.width, output_format.height)) := by
    simp [hsize]
  have hdp : ¬(format.bit_depth ≠ output_format.bit_depth) := by simp [hdepth]
  refine ⟨fun h1 h2 => ?_, fun h1 h2 h3 h4 => ?_, fun h1 h2 h3 => ?_,
    fun h1 h2 h3 => ?_⟩
  · unfold validate_format
    rw [if_neg hsz, if_neg hdp, if_pos (by rw [h1, h2]; decide)]
    rw [h1, h2]
  · unfold validate_format
    rw [if_neg hsz, if_neg hdp, if_pos (by rw [h1, h2]; decide)]
    rw [h1, h2]
    subst h3 h4
    rfl
  · unfold validate_format
    rw [if_neg hsz, if_neg hdp, if_pos (by rw [h1, h2]; decide)]
    rw [h1, h2]
    have hb : ((suffix_index == 0) && !keep_mask_alpha) = false := by
      rcases eq_or_ne suffix_index 0 with h | h
      · subst h
        cases keep_mask_alpha with
        | true => rfl
        | false => exact absurd ⟨rfl, rfl⟩ h3
      · simp [h]
    rw [hb]
    rfl
  · unfold validate_format
    rw [if_neg hsz, if_neg hdp, if_pos h1]
    revert h1 h2 h3
    cases hf : format.color_type <;> cases ho : output_format.color_type <;>
      simp_all

/-- Witness for C4: the warning case at suffix index 2, with the file named. -/
theorem c4_channel_reconciliation_witness :
    validate_format false (2 == 0) "part_N.png"
        ⟨4, 4, ColorType.Rgba, BitDepth.Eight⟩
        ⟨4, 4, ColorType.Rgb, BitDepth.Eight⟩ =
      .ok (some (.unexpectedAlpha "part_N.png")) :=
  (c4_channel_reconciliation false 2 "part_N.png"
    ⟨4, 4, ColorType.Rgba, BitDepth.Eight⟩
    ⟨4, 4, ColorType.Rgb, BitDepth.Eight⟩ rfl rfl).2.2.1 rfl rfl (by omega)

/-! ### Claim C3 -/

theorem copy_image_format (s d r : RawImage) (h : copy_image s d = .ok r) :
    r.format = d.format := by
  unfold copy_image at h
  by_cases hf : s.format = d.format
  · rw [if_pos hf] at h
    by_cases hl : s.data.length ≠ d.data.length
    · rw [if_pos hl] at h
      exact absurd h (by simp)
    · rw [if_neg hl] at h
      cases h
      rfl
  · rw [if_neg hf] at h
    by_cases hd : (s.format.width, s.format.height) ≠ (d.format.width, d.format.height)
    · rw [if_pos hd] at h
      exact absurd h (by simp)
    · rw [if_neg hd] at h
      by_cases hn : s.format.width * s.format.height = 0
      · rw [if_pos hn] at h
        exact absurd h (by simp)
      · rw [if_neg hn] at h
        simp only [] at h
        cases hloop : copyLoopConv s.data s.format d.format
            (s.data.length / (s.format.width * s.format.height))
            (d.data.length / (s.format.width * s.format.height)) d.data 0
            (s.format.width * s.format.height) with
        | error e =>
          rw [hloop] at h
          exact absurd h (by simp)
        | ok dd =>
          rw [hloop] at h
          cases h
          rfl

theorem copy_image_masked_format (s d : RawImage) (mask : List Bool)
    (r : RawImage) (h : copy_image_masked s d mask = .ok r) :
    r.format = d.format := by
  unfold copy_image_masked at h
  by_cases hd : (s.format.width, s.format.height) ≠ (d.format.width, d.format.height)
  · rw [if_pos hd] at h
    exact absurd h (by simp)
  · rw [if_neg hd] at h
    by_cases hn : s.format.width * s.format.height = 0
    · rw [if_pos hn] at h
      exact absurd h (by simp)
    · rw [if_neg hn] at h
      simp only [] at h
      by_cases hm : mask.length ≠ s.format.width * s.format.height
      · rw [if_pos hm] at h
        exact absurd h (by simp)
      · rw [if_neg hm] at h
        cases hloop : copyLoopMasked s.data s.format d.format
            (s.data.length / (s.format.width * s.format.height))
            (d.data.length / (s.format.width * s.format.height)) mask d.data 0
            (s.format.width * s.format.height) with
        | error e =>
          rw [hloop] at h
          exact absurd h (by simp)
        | ok dd =>
          rw [hloop] at h
          cases h
          rfl

theorem createOutput_format (keep_mask_alpha is_mask_source : Bool)
    (fmt : ImageFormat) (out : RawImage)
    (h : createOutput keep_mask_alpha is_mask_source fmt = .ok out) :
    out.format.width = fmt.width ∧ out.format.height = fmt.height ∧
    out.format.color_type =
      (if is_mask_source = true ∧ keep_mask_alpha = false then ColorType.Rgb
        else fmt.color_type) ∧
    out.format.bit_depth = fmt.bit_depth := by
  unfold createOutput at h
  cases is_mask_source with
  | false =>
    rw [if_neg (by simp)] at h
    cases hcs : calc_pixel_stride fmt with
    | error e =>
      simp only [hcs] at h
      exact Except.noConfusion h
    | ok s =>
      simp only [hcs, Except.ok.injEq] at h
      rw [← h]
      refine ⟨rfl, rfl, ?_, rfl⟩
      rw [if_neg (by simp)]
  | true =>
    cases keep_mask_alpha with
    | true =>
      rw [if_neg (by simp)] at h
      cases hcs : calc_pixel_stride fmt with
      | error e =>
        simp only [hcs] at h
        exact Except.noConfusion h
      | ok s =>
        simp only [hcs, Except.ok.injEq] at h
        rw [← h]
        refine ⟨rfl, rfl, ?_, rfl⟩
        rw [if_neg (by simp)]
    | false =>
      rw [if_pos (by simp)] at h
      cases hcs : calc_pixel_stride
          ⟨fmt.width, fmt.height, ColorType.Rgb, fmt.bit_depth⟩ with
      | error e =>
        simp only [hcs] at h
        exact Except.noConfusion h
      | ok s =>
        simp only [hcs, Except.ok.injEq] at h
        rw [← h]
        refine ⟨rfl, rfl, ?_, rfl⟩
        rw [if_pos ⟨rfl, rfl⟩]

/-- Claim C3: when the first contributing layer for a suffix is encountered
(the state holds no output image yet) and the step succeeds, the output image
it creates has that layer's width and height, channels RGB when
`suffix_index = 0` and `keep_mask_alpha` is off and otherwise the layer's
channels, and the layer's bit depth. -/
theorem c3_output_creation (fs : List (String × RawImage)) (keep_mask_alpha : Bool)
    (suffix_index : Nat) (item : InputTextureSet × List Bool) (st st' : CombState)
    (texture_filename : String) (image : RawImage)
    (hout : st.output = none)
    (htex : item.1.textures[suffix_index]? = some (some texture_filename))
    (hread : lookupFile fs texture_filename = some image)
    (hstep : combineSetStep fs keep_mask_alpha suffix_index item st = .ok st') :
    ∃ out, st'.output = some out ∧
      out.format.width = image.format.width ∧
      out.format.height = image.format.height ∧
      out.format.color_type =
        (if suffix_index = 0 ∧ keep_mask_alpha = false then ColorType.Rgb
          else image.format.color_type) ∧
      out.format.bit_depth = image.format.bit_depth := by
  have hread' : read_image_from_file fs texture_filename = .ok image := by
    unfold read_image_from_file
    rw [hread]
  unfold combineSetStep at hstep
  rw [htex] at hstep
  simp only [hread', hout] at hstep
  cases hcr : createOutput keep_mask_alpha (suffix_index == 0) image.format with
  | error e =>
    simp only [hcr] at hstep
    exact Except.noConfusion hstep
  | ok out0 =>
    simp only [hcr] at hstep
    have hfmt0 := createOutput_format keep_mask_alpha (suffix_index == 0)
      image.format out0 hcr
    have hiff : ((suffix_index == 0) = true ∧ keep_mask_alpha = false) ↔
        (suffix_index = 0 ∧ keep_mask_alpha = false) := by
      simp only [beq_iff_eq]
    have hfmt : out0.format.width = image.format.width ∧
        out0.format.height = image.format.height ∧
        out0.format.color_type =
          (if suffix_index = 0 ∧ keep_mask_alpha = false then ColorType.Rgb
            else image.format.color_type) ∧
        out0.format.bit_depth = image.format.bit_depth := by
      rw [if_congr hiff rfl rfl] at hfmt0
      exact hfmt0
    by_cases hfirst : st.first = true
    · simp only [hfirst, if_true] at hstep
      cases hcp : copy_image image out0 with
      | error e =>
        simp only [hcp] at hstep
        exact Except.noConfusion hstep
      | ok out2 =>
        simp only [hcp, Except.ok.injEq] at hstep
        rw [← hstep]
        exact ⟨out2, rfl, (copy_image_format image out0 out2 hcp) ▸ hfmt⟩
    · have hfirst' : st.first = false := by
        cases hsf : st.first
        · rfl
        · exact absurd hsf hfirst
      simp only [hfirst', Bool.false_eq_true, if_false] at hstep
      cases hcp : copy_image_masked image out0 item.2 with
      | error e =>
        simp only [hcp] at hstep
        exact Except.noConfusion hstep
      | ok out2 =>
        simp only [hcp, Except.ok.injEq] at hstep
        rw [← hstep]
        exact ⟨out2, rfl, (copy_image_masked_format image out0 item.2 out2 hcp) ▸ hfmt⟩

/-- Witness for C3: a concrete first contributing RGBA layer at suffix index 0
with `keep_mask_alpha` off, whose created output image is RGB. -/
theorem c3_output_creation_witness :
    ∃ out, (CombState.mk (some ⟨[9, 9, 9], ⟨1, 1, ColorType.Rgb, BitDepth.Eight⟩⟩)
        false []).output = some out ∧
      out.format.width = 1 ∧ out.format.height = 1 ∧
      out.format.color_type =
        (if 0 = 0 ∧ false = false then ColorType.Rgb else ColorType.Rgba) ∧
      out.format.bit_depth = BitDepth.Eight :=
  c3_output_creation [("m.png", ⟨[9, 9, 9, 0], ⟨1, 1, ColorType.Rgba, BitDepth.Eight⟩⟩)]
    false 0 (⟨"m", [some "m.png"]⟩, [false]) ⟨none, true, []⟩
    ⟨some ⟨[9, 9, 9], ⟨1, 1, ColorType.Rgb, BitDepth.Eight⟩⟩, false, []⟩
    "m.png" ⟨[9, 9, 9, 0], ⟨1, 1, ColorType.Rgba, BitDepth.Eight⟩⟩
    rfl rfl rfl rfl

/-! ### Pixel-level characterization of the copy loops (towards C1) -/

/-- Bytes per pixel of an 8-bit supported color type (statement-side synonym
for what `calc_pixel_stride` returns on 8-bit formats). -/
def strideCt : ColorType → Nat
  | ColorType.Rgb => 3
  | ColorType.Rgba => 4
  | _ => 0

/-- The pixel actually stored when a decoded pixel is re-encoded with the
given destination color type and read back: RGB drops alpha and decodes it as
opaque; RGBA stores the pixel unchanged. -/
def conv (p : Pixel) : ColorType → Pixel
  | ColorType.Rgb => ⟨p.r, p.g, p.b, 255⟩
  | _ => p

/-- The color types whose 8-bit pixels the codec supports. -/
def ctSupported (ct : ColorType) : Prop :=
  ct = ColorType.Rgb ∨ ct = ColorType.Rgba

/-- Source-to-destination channel combinations that the compositor accepts
(identical, RGB into RGBA, or RGBA into RGB). -/
def ctOk (src dst : ColorType) : Prop :=
  src = dst ∨ (src = ColorType.Rgb ∧ dst = ColorType.Rgba) ∨
    (src = ColorType.Rgba ∧ dst = ColorType.Rgb)

theorem ctOk_supported {src dst : ColorType} (h : ctOk src dst)
    (hd : ctSupported dst) : ctSupported src := by
  rcases h with h | ⟨h, _⟩ | ⟨h, _⟩
  · rw [h]; exact hd
  · exact Or.inl h
  · exact Or.inr h

@[simp] theorem strideCt_rgb : strideCt ColorType.Rgb = 3 := rfl

@[simp] theorem strideCt_rgba : strideCt ColorType.Rgba = 4 := rfl

theorem strideCt_pos {ct : ColorType} (h : ctSupported ct) : 0 < strideCt ct := by
  rcases h with h | h <;> rw [h] <;> decide

theorem calc_pixel_stride_eight {fmt : ImageFormat}
    (hbd : fmt.bit_depth = BitDepth.Eight) (hct : ctSupported fmt.color_type) :
    calc_pixel_stride fmt = .ok (strideCt fmt.color_type) := by
  unfold calc_pixel_stride
  rcases hct with h | h <;> rw [hbd, h] <;> rfl

theorem bytes_to_pixel_ok (data : List Nat) (off : Nat) (fmt : ImageFormat)
    (hbd : fmt.bit_depth = BitDepth.Eight) (hct : ctSupported fmt.color_type)
    (hb : off + strideCt fmt.color_type ≤ data.length) :
    ∃ q, bytes_to_pixel data off fmt = .ok q := by
  rcases hct with h | h <;> rw [h] at hb <;> simp only [strideCt_rgb, strideCt_rgba] at hb
  · obtain ⟨r, hr⟩ := getElem?_eq_some_of_lt data off (by omega)
    obtain ⟨g, hg⟩ := getElem?_eq_some_of_lt data (off + 1) (by omega)
    obtain ⟨b, hb2⟩ := getElem?_eq_some_of_lt data (off + 2) (by omega)
    refine ⟨⟨r, g, b, 255⟩, ?_⟩
    unfold bytes_to_pixel
    rw [hbd, h, hr, hg, hb2]
  · obtain ⟨r, hr⟩ := getElem?_eq_some_of_lt data off (by omega)
    obtain ⟨g, hg⟩ := getElem?_eq_some_of_lt data (off + 1) (by omega)
    obtain ⟨b, hb2⟩ := getElem?_eq_some_of_lt data (off + 2) (by omega)
    obtain ⟨a, ha⟩ := getElem?_eq_some_of_lt data (off + 3) (by omega)
    refine ⟨⟨r, g, b, a⟩, ?_⟩
    unfold bytes_to_pixel
    rw [hbd, h, hr, hg, hb2, ha]

/-- A pixel decoded from a color type re-encodes to itself under that same
color type: decoded RGB pixels already carry alpha 255. -/
theorem decode_conv_self {data : List Nat} {off : Nat} {fmt : ImageFormat}
    {q : Pixel} (hbd : fmt.bit_depth = BitDepth.Eight)
    (hct : ctSupported fmt.color_type)
    (h : bytes_to_pixel data off fmt = .ok q) : conv q fmt.color_type = q := by
  rcases hct with hc | hc
  · unfold bytes_to_pixel at h
    rw [hbd, hc] at h
    rw [hc]
    cases h0 : data[off]? <;> cases h1 : data[off + 1]? <;>
      cases h2 : data[off + 2]? <;> rw [h0, h1, h2] at h <;>
      simp only [Except.ok.injEq] at h <;> first
        | exact Except.noConfusion h
        | (rw [← h]; rfl)
  · rw [hc]
    rfl

theorem bytes_to_pixel_congr (d₁ d₂ : List Nat) (off : Nat) (fmt : ImageFormat)
    (hbd : fmt.bit_depth = BitDepth.Eight) (hct : ctSupported fmt.color_type)
    (h : ∀ j, off ≤ j → j < off + strideCt fmt.color_type → d₁[j]? = d₂[j]?) :
    bytes_to_pixel d₁ off fmt = bytes_to_pixel d₂ off fmt := by
  rcases hct with hc | hc <;> rw [hc] at h <;>
    simp only [strideCt_rgb, strideCt_rgba] at h
  · unfold bytes_to_pixel
    rw [hbd, hc]
    rw [h off (by omega) (by omega), h (off + 1) (by omega) (by omega),
      h (off + 2) (by omega) (by omega)]
  · unfold bytes_to_pixel
    rw [hbd, hc]
    rw [h off (by omega) (by omega), h (off + 1) (by omega) (by omega),
      h (off + 2) (by omega) (by omega), h (off + 3) (by omega) (by omega)]

/-- Writing one pixel: succeeds within bounds, preserves the length, leaves
every byte outside the written stride unchanged, and decodes back to `conv`
of the written pixel. -/
theorem pixel_to_bytes_spec (p : Pixel) (fmt : ImageFormat)
    (hbd : fmt.bit_depth = BitDepth.Eight) (hct : ctSupported fmt.color_type)
    (dst : List Nat) (off : Nat)
    (hb : off + strideCt fmt.color_type ≤ dst.length) :
    ∃ dst', pixel_to_bytes p fmt dst off = .ok dst' ∧
      dst'.length = dst.length ∧
      (∀ j, j < off ∨ off + strideCt fmt.color_type ≤ j → dst'[j]? = dst[j]?) ∧
      bytes_to_pixel dst' off fmt = .ok (conv p fmt.color_type) := by
  rcases hct with hc | hc <;> rw [hc] at hb <;>
    simp only [strideCt_rgb, strideCt_rgba] at hb
  · refine ⟨((dst.set off p.r).set (off + 1) p.g).set (off + 2) p.b, ?_, ?_, ?_, ?_⟩
    · unfold pixel_to_bytes
      simp only [hbd, hc]
      rw [if_pos (by omega)]
    · simp only [List.length_set]
    · intro j hj
      rw [hc] at hj
      simp only [strideCt_rgb] at hj
      rw [List.getElem?_set_ne (by omega), List.getElem?_set_ne (by omega),
        List.getElem?_set_ne (by omega)]
    · have h0 : (((dst.set off p.r).set (off + 1) p.g).set (off + 2) p.b)[off]? =
          some p.r := by
        rw [List.getElem?_set_ne (by omega), List.getElem?_set_ne (by omega),
          List.getElem?_set_self (by omega)]
      have h1 : (((dst.set off p.r).set (off + 1) p.g).set (off + 2) p.b)[off + 1]? =
          some p.g := by
        rw [List.getElem?_set_ne (by omega),
          List.getElem?_set_self (by simp only [List.length_set]; omega)]
      have h2 : (((dst.set off p.r).set (off + 1) p.g).set (off + 2) p.b)[off + 2]? =
          some p.b := by
        rw [List.getElem?_set_self (by simp only [List.length_set]; omega)]
      unfold bytes_to_pixel
      rw [hbd, hc, h0, h1, h2]
      rfl
  · refine ⟨(((dst.set off p.r).set (off + 1) p.g).set (off + 2) p.b).set (off + 3) p.a,
      ?_, ?_, ?_, ?_⟩
    · unfold pixel_to_bytes
      simp only [hbd, hc]
      rw [if_pos (by omega)]
    · simp only [List.length_set]
    · intro j hj
      rw [hc] at hj
      simp only [strideCt_rgba] at hj
      rw [List.getElem?_set_ne (by omega), List.getElem?_set_ne (by omega),
        List.getElem?_set_ne (by omega), List.getElem?_set_ne (by omega)]
    · have h0 : ((((dst.set off p.r).set (off + 1) p.g).set (off + 2) p.b).set
          (off + 3) p.a)[off]? = some p.r := by
        rw [List.getElem?_set_ne (by omega), List.getElem?_set_ne (by omega),
          List.getElem?_set_ne (by omega), List.getElem?_set_self (by omega)]
      have h1 : ((((dst.set off p.r).set (off + 1) p.g).set (off + 2) p.b).set
          (off + 3) p.a)[off + 1]? = some p.g := by
        rw [List.getElem?_set_ne (by omega), List.getElem?_set_ne (by omega),
          List.getElem?_set_self (by simp only [List.length_set]; omega)]
      have h2 : ((((dst.set off p.r).set (off + 1) p.g).set (off + 2) p.b).set
          (off + 3) p.a)[off + 2]? = some p.b := by
        rw [List.getElem?_set_ne (by omega),
          List.getElem?_set_self (by simp only [List.length_set]; omega)]
      have h3 : ((((dst.set off p.r).set (off + 1) p.g).set (off + 2) p.b).set
          (off + 3) p.a)[off + 3]? = some p.a := by
        rw [List.getElem?_set_self (by simp only [List.length_set]; omega)]
      unfold bytes_to_pixel
      rw [hbd, hc, h0, h1, h2, h3]
      rfl

theorem mul_succ_le {i N s : Nat} (h : i < N) : i * s + s ≤ N * s := by
  have h1 : (i + 1) * s ≤ N * s := Nat.mul_le_mul_right s h
  rw [Nat.succ_mul] at h1
  exact h1

/-- Full characterization of the masked copy loop: it succeeds, preserves the
buffer length, leaves every byte outside the written pixels unchanged, and at
every true-mask pixel in range the destination decodes to `conv` of the
decoded source pixel. -/
theorem copyLoopMasked_spec (src : List Nat) (sfmt dfmt : ImageFormat)
    (mask : List Bool) (N : Nat)
    (hsbd : sfmt.bit_depth = BitDepth.Eight) (hsct : ctSupported sfmt.color_type)
    (hdbd : dfmt.bit_depth = BitDepth.Eight) (hdct : ctSupported dfmt.color_type)
    (hsrc : src.length = N * strideCt sfmt.color_type)
    (hmask : mask.length = N) :
    ∀ (fuel i : Nat) (dst : List Nat),
      dst.length = N * strideCt dfmt.color_type → i + fuel ≤ N →
      ∃ dst', copyLoopMasked src sfmt dfmt (strideCt sfmt.color_type)
          (strideCt dfmt.color_type) mask dst i fuel = .ok dst' ∧
        dst'.length = dst.length ∧
        (∀ j : Nat, (∀ p : Nat, i ≤ p → p < i + fuel → mask[p]? = some true →
            ¬(p * strideCt dfmt.color_type ≤ j ∧
              j < p * strideCt dfmt.color_type + strideCt dfmt.color_type)) →
          dst'[j]? = dst[j]?) ∧
        (∀ p : Nat, i ≤ p → p < i + fuel → mask[p]? = some true →
          bytes_to_pixel dst' (p * strideCt dfmt.color_type) dfmt =
            (bytes_to_pixel src (p * strideCt sfmt.color_type) sfmt).map
              (fun q => conv q dfmt.color_type))
  | 0, i, dst, hdst, hif =>
    ⟨dst, rfl, rfl, fun j _ => rfl, fun p hp hpf _ => absurd hpf (by omega)⟩
  | fuel + 1, i, dst, hdst, hif => by
    have hilt : i < N := by omega
    have hilen : i < mask.length := by omega
    obtain ⟨b, hbm⟩ := getElem?_eq_some_of_lt mask i hilen
    have hsb : i * strideCt sfmt.color_type + strideCt sfmt.color_type ≤
        src.length := by
      rw [hsrc]
      exact mul_succ_le hilt
    have hdb : i * strideCt dfmt.color_type + strideCt dfmt.color_type ≤
        dst.length := by
      rw [hdst]
      exact mul_succ_le hilt
    unfold copyLoopMasked
    simp only [hbm]
    cases b with
    | false =>
      simp only [Bool.false_eq_true, if_false]
      obtain ⟨dst', hloop, hlen, hunt, hcop⟩ :=
        copyLoopMasked_spec src sfmt dfmt mask N hsbd hsct hdbd hdct hsrc hmask
          fuel (i + 1) dst hdst (by omega)
      refine ⟨dst', hloop, hlen, ?_, ?_⟩
      · intro j hj
        exact hunt j (fun p hp hpf hm => hj p (by omega) (by omega) hm)
      · intro p hp hpf hm
        by_cases hpi : p = i
        · rw [hpi, hbm] at hm
          exact absurd hm (by simp)
        · exact hcop p (by omega) (by omega) hm
    | true =>
      simp only [if_true]
      obtain ⟨q, hq⟩ :=
        bytes_to_pixel_ok src (i * strideCt sfmt.color_type) sfmt hsbd hsct hsb
      simp only [hq]
      obtain ⟨dst₁, hw, hwlen, hwunt, hwdec⟩ :=
        pixel_to_bytes_spec q dfmt hdbd hdct dst
          (i * strideCt dfmt.color_type) hdb
      simp only [hw]
      obtain ⟨dst', hloop, hlen, hunt, hcop⟩ :=
        copyLoopMasked_spec src sfmt dfmt mask N hsbd hsct hdbd hdct hsrc hmask
          fuel (i + 1) dst₁ (hwlen.trans hdst) (by omega)
      refine ⟨dst', hloop, by rw [hlen, hwlen], ?_, ?_⟩
      · intro j hj
        have hji : ¬(i * strideCt dfmt.color_type ≤ j ∧
            j < i * strideCt dfmt.color_type + strideCt dfmt.color_type) :=
          hj i (by omega) (by omega) hbm
        rw [hunt j (fun p hp hpf hm => hj p (by omega) (by omega) hm)]
        exact hwunt j (by omega)
      · intro p hp hpf hm
        by_cases hpi : p = i
        · subst hpi
          have hagree : ∀ k, p * strideCt dfmt.color_type ≤ k →
              k < p * strideCt dfmt.color_type + strideCt dfmt.color_type →
              dst'[k]? = dst₁[k]? := by
            intro k hk1 hk2
            apply hunt k
            intro p' hp' hp'f hm'
            intro hcontra
            obtain ⟨hc1, hc2⟩ := hcontra
            have hle : p * strideCt dfmt.color_type + strideCt dfmt.color_type ≤
                p' * strideCt dfmt.color_type := mul_succ_le (by omega)
            omega
          have hcongr := bytes_to_pixel_congr dst' dst₁
            (p * strideCt dfmt.color_type) dfmt hdbd hdct
            (fun k hk1 hk2 => hagree k hk1 hk2)
          rw [hcongr, hwdec, hq]
          rfl
        · exact hcop p (by omega) (by omega) hm

/-- Full characterization of the unmasked conversion loop (the slow path of
`copy_image`): like the masked loop with every pixel in range copied. -/
theorem copyLoopConv_spec (src : List Nat) (sfmt dfmt : ImageFormat) (N : Nat)
    (hsbd : sfmt.bit_depth = BitDepth.Eight) (hsct : ctSupported sfmt.color_type)
    (hdbd : dfmt.bit_depth = BitDepth.Eight) (hdct : ctSupported dfmt.color_type)
    (hsrc : src.length = N * strideCt sfmt.color_type) :
    ∀ (fuel i : Nat) (dst : List Nat),
      dst.length = N * strideCt dfmt.color_type → i + fuel ≤ N →
      ∃ dst', copyLoopConv src sfmt dfmt (strideCt sfmt.color_type)
          (strideCt dfmt.color_type) dst i fuel = .ok dst' ∧
        dst'.length = dst.length ∧
        (∀ j : Nat, (∀ p : Nat, i ≤ p → p < i + fuel →
            ¬(p * strideCt dfmt.color_type ≤ j ∧
              j < p * strideCt dfmt.color_type + strideCt dfmt.color_type)) →
          dst'[j]? = dst[j]?) ∧
        (∀ p : Nat, i ≤ p → p < i + fuel →
          bytes_to_pixel dst' (p * strideCt dfmt.color_type) dfmt =
            (bytes_to_pixel src (p * strideCt sfmt.color_type) sfmt).map
              (fun q => conv q dfmt.color_type))
  | 0, i, dst, hdst, hif =>
    ⟨dst, rfl, rfl, fun j _ => rfl, fun p hp hpf => absurd hpf (by omega)⟩
  | fuel + 1, i, dst, hdst, hif => by
    have hilt : i < N := by omega
    have hsb : i * strideCt sfmt.color_type + strideCt sfmt.color_type ≤
        src.length := by
      rw [hsrc]
      exact mul_succ_le hilt
    have hdb : i * strideCt dfmt.color_type + strideCt dfmt.color_type ≤
        dst.length := by
      rw [hdst]
      exact mul_succ_le hilt
    unfold copyLoopConv
    obtain ⟨q, hq⟩ :=
      bytes_to_pixel_ok src (i * strideCt sfmt.color_type) sfmt hsbd hsct hsb
    simp only [hq]
    obtain ⟨dst₁, hw, hwlen, hwunt, hwdec⟩ :=
      pixel_to_bytes_spec q dfmt hdbd hdct dst (i * strideCt dfmt.color_type) hdb
    simp only [hw]
    obtain ⟨dst', hloop, hlen, hunt, hcop⟩ :=
      copyLoopConv_spec src sfmt dfmt N hsbd hsct hdbd hdct hsrc
        fuel (i + 1) dst₁ (hwlen.trans hdst) (by omega)
    refine ⟨dst', hloop, by rw [hlen, hwlen], ?_, ?_⟩
    · intro j hj
      have hji : ¬(i * strideCt dfmt.color_type ≤ j ∧
          j < i * strideCt dfmt.color_type + strideCt dfmt.color_type) :=
        hj i (by omega) (by omega)
      rw [hunt j (fun p hp hpf => hj p (by omega) (by omega))]
      exact hwunt j (by omega)
    · intro p hp hpf
      by_cases hpi : p = i
      · subst hpi
        have hagree : ∀ k, p * strideCt dfmt.color_type ≤ k →
            k < p * strideCt dfmt.color_type + strideCt dfmt.color_type →
            dst'[k]? = dst₁[k]? := by
          intro k hk1 hk2
          apply hunt k
          intro p' hp' hp'f
          intro hcontra
          obtain ⟨hc1, hc2⟩ := hcontra
          have hle : p * strideCt dfmt.color_type + strideCt dfmt.color_type ≤
              p' * strideCt dfmt.color_type := mul_succ_le (by omega)
          omega
        have hcongr := bytes_to_pixel_congr dst' dst₁
          (p * strideCt dfmt.color_type) dfmt hdbd hdct
          (fun k hk1 hk2 => hagree k hk1 hk2)
        rw [hcongr, hwdec, hq]
        rfl
      · exact hcop p (by omega) (by omega)

/-- `copy_image` on well-formed 8-bit images: succeeds along either path and
every destination pixel decodes to `conv` of the decoded source pixel. -/
theorem copy_image_spec (src dst : RawImage) (N : Nat)
    (hN : N = src.format.width * src.format.height) (hNpos : 0 < N)
    (hsbd : src.format.bit_depth = BitDepth.Eight)
    (hsct : ctSupported src.format.color_type)
    (hdbd : dst.format.bit_depth = BitDepth.Eight)
    (hdct : ctSupported dst.format.color_type)
    (hw : src.format.width = dst.format.width)
    (hh : src.format.height = dst.format.height)
    (hsrc : src.data.length = N * strideCt src.format.color_type)
    (hdst : dst.data.length = N * strideCt dst.format.color_type) :
    ∃ r, copy_image src dst = .ok r ∧ r.format = dst.format ∧
      r.data.length = dst.data.length ∧
      ∀ p, p < N →
        bytes_to_pixel r.data (p * strideCt dst.format.color_type) dst.format =
          (bytes_to_pixel src.data
              (p * strideCt src.format.color_type) src.format).map
            (fun q => conv q dst.format.color_type) := by
  by_cases hf : src.format = dst.format
  · have hlen : src.data.length = dst.data.length := by rw [hsrc, hdst, hf]
    refine ⟨⟨src.data, dst.format⟩, ?_, rfl, hlen, ?_⟩
    · unfold copy_image
      rw [if_pos hf, if_neg (by omega)]
    · intro p hp
      have hb : p * strideCt src.format.color_type +
          strideCt src.format.color_type ≤ src.data.length := by
        rw [hsrc]
        exact mul_succ_le hp
      obtain ⟨q, hq⟩ := bytes_to_pixel_ok src.data
        (p * strideCt src.format.color_type) src.format hsbd hsct hb
      rw [← hf]
      rw [hq]
      simp only [Except.map]
      rw [decode_conv_self hsbd hsct hq]
  · have hss : src.data.length / N = strideCt src.format.color_type := by
      rw [hsrc]
      exact Nat.mul_div_cancel_left _ hNpos
    have hds : dst.data.length / N = strideCt dst.format.color_type := by
      rw [hdst]
      exact Nat.mul_div_cancel_left _ hNpos
    obtain ⟨dst', hloop, hlen, _, hcop⟩ :=
      copyLoopConv_spec src.data src.format dst.format N hsbd hsct hdbd hdct
        hsrc N 0 dst.data hdst (by omega)
    refine ⟨⟨dst', dst.format⟩, ?_, rfl, hlen, ?_⟩
    · unfold copy_image
      rw [if_neg hf, if_neg (by simp [hw, hh]), if_neg (by omega)]
      rw [← hN]
      simp only [hss, hds, hloop]
    · intro p hp
      exact hcop p (by omega) (by omega)

/-- `copy_image_masked` on well-formed 8-bit images: succeeds, copies exactly
the true-mask pixels, and leaves false-mask pixels decoding as before. -/
theorem copy_image_masked_spec (src dst : RawImage) (mask : List Bool) (N : Nat)
    (hN : N = src.format.width * src.format.height) (hNpos : 0 < N)
    (hsbd : src.format.bit_depth = BitDepth.Eight)
    (hsct : ctSupported src.format.color_type)
    (hdbd : dst.format.bit_depth = BitDepth.Eight)
    (hdct : ctSupported dst.format.color_type)
    (hw : src.format.width = dst.format.width)
    (hh : src.format.height = dst.format.height)
    (hsrc : src.data.length = N * strideCt src.format.color_type)
    (hdst : dst.data.length = N * strideCt dst.format.color_type)
    (hmask : mask.length = N) :
    ∃ r, copy_image_masked src dst mask = .ok r ∧ r.format = dst.format ∧
      r.data.length = dst.data.length ∧
      (∀ p, p < N → mask[p]? = some true →
        bytes_to_pixel r.data (p * strideCt dst.format.color_type) dst.format =
          (bytes_to_pixel src.data
              (p * strideCt src.format.color_type) src.format).map
            (fun q => conv q dst.format.color_type)) ∧
      (∀ p, p < N → mask[p]? = some false →
        bytes_to_pixel r.data (p * strideCt dst.format.color_type) dst.format =
          bytes_to_pixel dst.data
            (p * strideCt dst.format.color_type) dst.format) := by
  have hss : src.data.length / N = strideCt src.format.color_type := by
    rw [hsrc]
    exact Nat.mul_div_cancel_left _ hNpos
  have hds : dst.data.length / N = strideCt dst.format.color_type := by
    rw [hdst]
    exact Nat.mul_div_cancel_left _ hNpos
  obtain ⟨dst', hloop, hlen, hunt, hcop⟩ :=
    copyLoopMasked_spec src.data src.format dst.format mask N hsbd hsct hdbd
      hdct hsrc hmask N 0 dst.data hdst (by omega)
  refine ⟨⟨dst', dst.format⟩, ?_, rfl, hlen, ?_, ?_⟩
  · unfold copy_image_masked
    rw [if_neg (by simp [hw, hh]), if_neg (by omega), if_neg (by omega)]
    rw [← hN]
    simp only [hss, hds, hloop]
  · intro p hp hm
    exact hcop p (by omega) (by omega) hm
  · intro p hp hm
    apply bytes_to_pixel_congr dst' dst.data
      (p * strideCt dst.format.color_type) dst.format hdbd hdct
    intro k hk1 hk2
    apply hunt k
    intro p' hp' hp'f hm'
    intro hcontra
    obtain ⟨hc1, hc2⟩ := hcontra
    have hne : p' ≠ p := by
      intro he
      rw [he, hm] at hm'
      simp at hm'
    rcases Nat.lt_or_ge p' p with hlt | hge
    · have := @mul_succ_le _ _ (strideCt dst.format.color_type) hlt
      omega
    · have hgt : p < p' := by omega
      have := @mul_succ_le _ _ (strideCt dst.format.color_type) hgt
      omega

/-- The format-validation block succeeds (possibly with a warning) whenever
the sizes and bit depths match and the channel pair is one the compositor
accepts. -/
theorem validate_format_ok (keep_mask_alpha is_mask_source : Bool)
    (file : String) (fmt ofmt : ImageFormat)
    (hw : fmt.width = ofmt.width) (hh : fmt.height = ofmt.height)
    (hdepth : fmt.bit_depth = ofmt.bit_depth)
    (hct : ctOk fmt.color_type ofmt.color_type) :
    ∃ w, validate_format keep_mask_alpha is_mask_source file fmt ofmt = .ok w := by
  unfold validate_format
  rw [if_neg (by simp [hw, hh]), if_neg (by simp [hdepth])]
  rcases hct with hc | ⟨h1, h2⟩ | ⟨h1, h2⟩
  · rw [if_neg (by simp [hc])]
    exact ⟨none, rfl⟩
  · rw [if_pos (by rw [h1, h2]; decide), h1, h2]
    exact ⟨none, rfl⟩
  · rw [if_pos (by rw [h1, h2]; decide), h1, h2]
    cases hcb : (is_mask_source && !keep_mask_alpha) with
    | true => exact ⟨none, rfl⟩
    | false => exact ⟨some (.unexpectedAlpha file), rfl⟩

/-- Spec-side description of one set's contribution to one output pixel:
if the set has a layer for this suffix and its own mask is true at pixel `p`,
the layer's decoded pixel replaces the accumulator, else the accumulator is
kept. (The fallbacks for missing files or failed decodes keep the
accumulator; they are unreachable under the well-formedness hypotheses.) -/
def overlayItem (fs : List (String × RawImage)) (suffix_index : Nat)
    (item : InputTextureSet × List Bool) (p : Nat) (acc : Pixel) : Pixel :=
  match item.1.textures[suffix_index]? with
  | some (some f) =>
    match lookupFile fs f with
    | some img =>
      if item.2[p]? = some true then
        match bytes_to_pixel img.data
            (p * strideCt img.format.color_type) img.format with
        | .ok q => q
        | .error _ => acc
      else acc
    | none => acc
  | _ => acc

/-- Later-set-wins fold of the subsequent sets' contributions over one pixel. -/
def overlayList (fs : List (String × RawImage)) (suffix_index : Nat)
    (items : List (InputTextureSet × List Bool)) (p : Nat) (base : Pixel) :
    Pixel :=
  items.foldl (fun acc item => overlayItem fs suffix_index item p acc) base

@[simp] theorem overlayList_nil (fs : List (String × RawImage))
    (suffix_index p : Nat) (base : Pixel) :
    overlayList fs suffix_index [] p base = base := rfl

@[simp] theorem overlayList_cons (fs : List (String × RawImage))
    (suffix_index p : Nat) (item : InputTextureSet × List Bool)
    (rest : List (InputTextureSet × List Bool)) (base : Pixel) :
    overlayList fs suffix_index (item :: rest) p base =
      overlayList fs suffix_index rest p
        (overlayItem fs suffix_index item p base) := rfl

/-- Well-formedness of one (set, mask) pair for suffix `suffix_index` against
an output of size `w`-by-`h` with channels `outCt`: either the set has no
layer for this suffix, or the layer decodes to an 8-bit image of the right
size, an accepted channel pair, and a consistent buffer, with the mask one
bit per pixel. -/
def ItemWf (fs : List (String × RawImage)) (suffix_index : Nat) (w h : Nat)
    (outCt : ColorType) (item : InputTextureSet × List Bool) : Prop :=
  match item.1.textures[suffix_index]? with
  | none => False
  | some none => True
  | some (some f) =>
    match lookupFile fs f with
    | none => False
    | some img =>
      img.format.width = w ∧ img.format.height = h ∧
      img.format.bit_depth = BitDepth.Eight ∧
      ctOk img.format.color_type outCt ∧
      img.data.length = w * h * strideCt img.format.color_type ∧
      item.2.length = w * h

theorem combineSuffixLoop_cons (fs : List (String × RawImage)) (keep : Bool)
    (suffix_index : Nat) (item : InputTextureSet × List Bool)
    (rest : List (InputTextureSet × List Bool)) (st : CombState) :
    combineSuffixLoop fs keep suffix_index (item :: rest) st =
      match combineSetStep fs keep suffix_index item st with
      | .error e => .error e
      | .ok st' => combineSuffixLoop fs keep suffix_index rest st' := rfl

theorem combineSuffixLoop_append (fs : List (String × RawImage)) (keep : Bool)
    (suffix_index : Nat) (l₂ : List (InputTextureSet × List Bool)) :
    ∀ (l₁ : List (InputTextureSet × List Bool)) (st st₁ : CombState),
      combineSuffixLoop fs keep suffix_index l₁ st = .ok st₁ →
      combineSuffixLoop fs keep suffix_index (l₁ ++ l₂) st =
        combineSuffixLoop fs keep suffix_index l₂ st₁
  | [], st, st₁, h => by
    simp only [List.nil_append]
    cases h
    rfl
  | item :: l₁, st, st₁, h => by
    rw [combineSuffixLoop_cons] at h
    simp only [List.cons_append]
    rw [combineSuffixLoop_cons]
    cases hstep : combineSetStep fs keep suffix_index item st with
    | error e =>
      rw [hstep] at h
      exact Except.noConfusion h
    | ok st₂ =>
      rw [hstep] at h
      simp only []
      exact combineSuffixLoop_append fs keep suffix_index l₂ l₁ st₂ st₁ h

theorem combineSuffixLoop_skip (fs : List (String × RawImage)) (keep : Bool)
    (suffix_index : Nat) :
    ∀ (pre : List (InputTextureSet × List Bool)) (st : CombState),
      (∀ it ∈ pre, it.1.textures[suffix_index]? = some none) →
      combineSuffixLoop fs keep suffix_index pre st = .ok st
  | [], st, _ => rfl
  | item :: pre, st, hpre => by
    have hstep : combineSetStep fs keep suffix_index item st = .ok st := by
      unfold combineSetStep
      rw [hpre item (List.mem_cons_self item pre)]
    unfold combineSuffixLoop
    rw [hstep]
    exact combineSuffixLoop_skip fs keep suffix_index pre st
      (fun it hi => hpre it (List.mem_cons_of_mem item hi))

/-- Invariant of the per-set loop once an output image exists (`first` already
consumed): every further set is overlaid only where its own mask is true, in
order, so the final buffer realizes the later-set-wins fold `overlayList`. -/
theorem combineSuffixLoop_established (fs : List (String × RawImage))
    (keep : Bool) (suffix_index w h : Nat) (outCt : ColorType)
    (hNpos : 0 < w * h) (hdct : ctSupported outCt) :
    ∀ (items : List (InputTextureSet × List Bool)) (out : RawImage)
      (warns : List LogWarn) (base : Nat → Pixel),
      out.format = ⟨w, h, outCt, BitDepth.Eight⟩ →
      out.data.length = w * h * strideCt outCt →
      (∀ p, p < w * h →
        bytes_to_pixel out.data (p * strideCt outCt) out.format =
          .ok (conv (base p) outCt)) →
      (∀ it ∈ items, ItemWf fs suffix_index w h outCt it) →
      ∃ st' out', combineSuffixLoop fs keep suffix_index items
          ⟨some out, false, warns⟩ = .ok st' ∧
        st'.output = some out' ∧ out'.format = out.format ∧
        out'.data.length = out.data.length ∧
        ∀ p, p < w * h →
          bytes_to_pixel out'.data (p * strideCt outCt) out'.format =
            .ok (conv (overlayList fs suffix_index items p (base p)) outCt)
  | [], out, warns, base, houtfmt, houtlen, hbase, hwf => by
    refine ⟨⟨some out, false, warns⟩, out, rfl, rfl, rfl, rfl, ?_⟩
    intro p hp
    exact hbase p hp
  | item :: rest, out, warns, base, houtfmt, houtlen, hbase, hwf => by
    have hit := hwf item (List.mem_cons_self item rest)
    unfold ItemWf at hit
    cases htex : item.1.textures[suffix_index]? with
    | none => simp only [htex] at hit
    | some otex =>
      cases otex with
      | none =>
        have hstep : combineSetStep fs keep suffix_index item
            ⟨some out, false, warns⟩ = .ok ⟨some out, false, warns⟩ := by
          unfold combineSetStep
          rw [htex]
        obtain ⟨st', out', hloop, hso, hfmt', hlen', hpix⟩ :=
          combineSuffixLoop_established fs keep suffix_index w h outCt hNpos
            hdct rest out warns base houtfmt houtlen hbase
            (fun it hi => hwf it (List.mem_cons_of_mem item hi))
        refine ⟨st', out', ?_, hso, hfmt', hlen', ?_⟩
        · rw [combineSuffixLoop_cons]
          simp only [hstep]
          exact hloop
        · intro p hp
          have hov : overlayItem fs suffix_index item p (base p) = base p := by
            simp [overlayItem, htex]
          rw [overlayList_cons, hov]
          exact hpix p hp
      | some f =>
        cases hlk : lookupFile fs f with
        | none => simp only [htex, hlk] at hit
        | some img =>
          simp only [htex, hlk] at hit
          obtain ⟨hiw, hih, hibd, hict, hilen, hmlen⟩ := hit
          have hictS : ctSupported img.format.color_type :=
            ctOk_supported hict hdct
          have hrd : read_image_from_file fs f = .ok img := by
            unfold read_image_from_file
            rw [hlk]
          have hofw : img.format.width = out.format.width := by
            rw [houtfmt]
            exact hiw
          have hofh : img.format.height = out.format.height := by
            rw [houtfmt]
            exact hih
          have hofd : img.format.bit_depth = out.format.bit_depth := by
            rw [houtfmt]
            exact hibd
          have hofct : ctOk img.format.color_type out.format.color_type := by
            rw [houtfmt]
            exact hict
          obtain ⟨wopt, hval⟩ := validate_format_ok keep (suffix_index == 0) f
            img.format out.format hofw hofh hofd hofct
          obtain ⟨r, hcp, hrfmt, hrlen, hcopT, hcopF⟩ :=
            copy_image_masked_spec img out item.2 (w * h)
              (by rw [hiw, hih]) hNpos hibd hictS
              (by rw [houtfmt]) (by rw [houtfmt]; exact hdct)
              hofw hofh hilen
              (by rw [houtfmt]; exact houtlen) hmlen
          have hstepEx : ∃ warns2, combineSetStep fs keep suffix_index item
              ⟨some out, false, warns⟩ = .ok ⟨some r, false, warns2⟩ := by
            cases wopt with
            | none =>
              refine ⟨warns, ?_⟩
              unfold combineSetStep
              rw [htex]
              simp only [hrd, hval, Bool.false_eq_true, if_false, hcp]
            | some w0 =>
              refine ⟨warns ++ [w0], ?_⟩
              unfold combineSetStep
              rw [htex]
              simp only [hrd, hval, Bool.false_eq_true, if_false, hcp]
          obtain ⟨warns2, hstep⟩ := hstepEx
          have hbase' : ∀ p, p < w * h →
              bytes_to_pixel r.data (p * strideCt outCt) r.format =
                .ok (conv (overlayItem fs suffix_index item p (base p)) outCt) := by
            intro p hp
            have hplen : p < item.2.length := by omega
            obtain ⟨mb, hmb⟩ := getElem?_eq_some_of_lt item.2 p hplen
            cases mb with
            | true =>
              have hsb : p * strideCt img.format.color_type +
                  strideCt img.format.color_type ≤ img.data.length := by
                rw [hilen]
                exact mul_succ_le hp
              obtain ⟨q, hq⟩ := bytes_to_pixel_ok img.data
                (p * strideCt img.format.color_type) img.format hibd hictS hsb
              have hov : overlayItem fs suffix_index item p (base p) = q := by
                simp [overlayItem, htex, hlk, hmb, hq]
              have hcT := hcopT p hp hmb
              rw [hq] at hcT
              simp only [houtfmt] at hcT
              rw [hrfmt]
              simp only [houtfmt]
              rw [hcT, hov]
              rfl
            | false =>
              have hov : overlayItem fs suffix_index item p (base p) = base p := by
                simp [overlayItem, htex, hlk, hmb]
              have hcF := hcopF p hp hmb
              have hb := hbase p hp
              simp only [houtfmt] at hcF hb
              rw [hrfmt]
              simp only [houtfmt]
              rw [hcF, hov, hb]
          obtain ⟨st', out', hloop, hso, hfmt', hlen', hpix⟩ :=
            combineSuffixLoop_established fs keep suffix_index w h outCt hNpos
              hdct rest r warns2
              (fun p => overlayItem fs suffix_index item p (base p))
              (hrfmt.trans houtfmt)
              (by rw [hrlen]; exact houtlen)
              hbase'
              (fun it hi => hwf it (List.mem_cons_of_mem item hi))
          refine ⟨st', out', ?_, hso, hfmt'.trans hrfmt, ?_, ?_⟩
          · rw [combineSuffixLoop_cons]
            simp only [hstep]
            exact hloop
          · rw [hlen', hrlen]
          · intro p hp
            rw [overlayList_cons]
            exact hpix p hp

/-- Claim C1: for any output suffix, the per-set compositing loop copies the
first contributing set's layer into the output buffer at every pixel (no
masking), and each subsequent contributing set's layer only at pixels where
that set's own mask is true, in set order, so overlaps resolve later-set-wins:
every output pixel decodes to the later-set-wins fold (`overlayList`) of the
subsequent contributions over the first layer's decoded pixel, re-encoded in
the output's channel layout. -/
theorem c1_compositor_later_set_wins (fs : List (String × RawImage))
    (keep : Bool) (suffix_index : Nat)
    (pre : List (InputTextureSet × List Bool))
    (item0 : InputTextureSet × List Bool)
    (rest : List (InputTextureSet × List Bool)) (f0 : String) (img0 : RawImage)
    (outCt : ColorType)
    (hpre : ∀ it ∈ pre, it.1.textures[suffix_index]? = some none)
    (htex0 : item0.1.textures[suffix_index]? = some (some f0))
    (hlk0 : lookupFile fs f0 = some img0)
    (hbd0 : img0.format.bit_depth = BitDepth.Eight)
    (hct0 : ctSupported img0.format.color_type)
    (hlen0 : img0.data.length =
      img0.format.width * img0.format.height * strideCt img0.format.color_type)
    (hNpos : 0 < img0.format.width * img0.format.height)
    (houtCt : outCt = if suffix_index = 0 ∧ keep = false then ColorType.Rgb
      else img0.format.color_type)
    (hwf : ∀ it ∈ rest,
      ItemWf fs suffix_index img0.format.width img0.format.height outCt it) :
    ∃ st' out', combineSuffixLoop fs keep suffix_index (pre ++ item0 :: rest)
        ⟨none, true, []⟩ = .ok st' ∧
      st'.output = some out' ∧
      out'.format =
        ⟨img0.format.width, img0.format.height, outCt, BitDepth.Eight⟩ ∧
      ∀ p, p < img0.format.width * img0.format.height →
        ∃ b0, bytes_to_pixel img0.data
            (p * strideCt img0.format.color_type) img0.format = .ok b0 ∧
          bytes_to_pixel out'.data (p * strideCt outCt) out'.format =
            .ok (conv (overlayList fs suffix_index rest p b0) outCt) := by
  have hdctS : ctSupported outCt := by
    rw [houtCt]
    by_cases hc : suffix_index = 0 ∧ keep = false
    · rw [if_pos hc]
      exact Or.inl rfl
    · rw [if_neg hc]
      exact hct0
  have hofmt : (if (suffix_index == 0) && !keep then
      { img0.format with color_type := ColorType.Rgb } else img0.format) =
      ⟨img0.format.width, img0.format.height, outCt, BitDepth.Eight⟩ := by
    by_cases hc : suffix_index = 0 ∧ keep = false
    · obtain ⟨h1, h2⟩ := hc
      subst h1
      subst h2
      rw [if_pos (by decide)]
      rw [show outCt = ColorType.Rgb from by simpa using houtCt]
      rw [← hbd0]
    · have hb : ((suffix_index == 0) && !keep) = false := by
        rcases eq_or_ne suffix_index 0 with h | h
        · subst h
          cases keep with
          | true => rfl
          | false => exact absurd ⟨rfl, rfl⟩ hc
        · simp [h]
      rw [hb]
      simp only [Bool.false_eq_true, if_false]
      rw [show outCt = img0.format.color_type from by rw [houtCt, if_neg hc]]
      rw [← hbd0]
  have hcr : createOutput keep (suffix_index == 0) img0.format =
      .ok ⟨List.replicate
          (img0.format.width * img0.format.height * strideCt outCt) 0,
        ⟨img0.format.width, img0.format.height, outCt, BitDepth.Eight⟩⟩ := by
    unfold createOutput
    simp only [hofmt]
    rw [@calc_pixel_stride_eight
      ⟨img0.format.width, img0.format.height, outCt, BitDepth.Eight⟩ rfl hdctS]
  have hrd : read_image_from_file fs f0 = .ok img0 := by
    unfold read_image_from_file
    rw [hlk0]
  obtain ⟨r, hcp, hrfmt, hrlen, hcop⟩ :=
    copy_image_spec img0
      ⟨List.replicate
          (img0.format.width * img0.format.height * strideCt outCt) 0,
        ⟨img0.format.width, img0.format.height, outCt, BitDepth.Eight⟩⟩
      (img0.format.width * img0.format.height) rfl hNpos hbd0 hct0 rfl hdctS
      rfl rfl hlen0 (by simp)
  have hstep : combineSetStep fs keep suffix_index item0 ⟨none, true, []⟩ =
      .ok ⟨some r, false, []⟩ := by
    unfold combineSetStep
    rw [htex0]
    simp only [hrd, hcr, if_true, hcp]
  have hbase : ∀ p, p < img0.format.width * img0.format.height →
      bytes_to_pixel r.data (p * strideCt outCt) r.format =
        .ok (conv ((fun p => match bytes_to_pixel img0.data
            (p * strideCt img0.format.color_type) img0.format with
          | .ok q => q
          | .error _ => ⟨0, 0, 0, 0⟩) p) outCt) := by
    intro p hp
    have hsb : p * strideCt img0.format.color_type +
        strideCt img0.format.color_type ≤ img0.data.length := by
      rw [hlen0]
      exact mul_succ_le hp
    obtain ⟨q, hq⟩ := bytes_to_pixel_ok img0.data
      (p * strideCt img0.format.color_type) img0.format hbd0 hct0 hsb
    have hc := hcop p hp
    rw [hq] at hc
    rw [hrfmt]
    simp only at hc ⊢
    rw [hc, hq]
    rfl
  obtain ⟨st', out', hloop, hso, hfmt', hlen', hpix⟩ :=
    combineSuffixLoop_established fs keep suffix_index
      img0.format.width img0.format.height outCt hNpos hdctS rest r []
      (fun p => match bytes_to_pixel img0.data
          (p * strideCt img0.format.color_type) img0.format with
        | .ok q => q
        | .error _ => ⟨0, 0, 0, 0⟩)
      (by rw [hrfmt]) (by rw [hrlen]; simp) hbase hwf
  refine ⟨st', out', ?_, hso, by rw [hfmt', hrfmt], ?_⟩
  · rw [combineSuffixLoop_append fs keep suffix_index (item0 :: rest) pre
      ⟨none, true, []⟩ ⟨none, true, []⟩
      (combineSuffixLoop_skip fs keep suffix_index pre ⟨none, true, []⟩ hpre)]
    rw [combineSuffixLoop_cons]
    simp only [hstep]
    exact hloop
  · intro p hp
    have hsb : p * strideCt img0.format.color_type +
        strideCt img0.format.color_type ≤ img0.data.length := by
      rw [hlen0]
      exact mul_succ_le hp
    obtain ⟨q, hq⟩ := bytes_to_pixel_ok img0.data
      (p * strideCt img0.format.color_type) img0.format hbd0 hct0 hsb
    refine ⟨q, hq, ?_⟩
    have := hpix p hp
    rw [hq] at this
    simpa using this

/-- Two-set, 2-by-1 scenario for the C1 witness: set A is the first
contributor, set B overlays only pixel 1 (its mask is [false, true]). -/
def fsOverlay : List (String × RawImage) :=
  [("A_D.png", ⟨[1, 1, 1, 9, 2, 2, 2, 9], ⟨2, 1, ColorType.Rgba, BitDepth.Eight⟩⟩),
   ("B_D.png", ⟨[5, 5, 5, 9, 6, 6, 6, 9], ⟨2, 1, ColorType.Rgba, BitDepth.Eight⟩⟩)]

/-- Texture set A with its (all-true) mask. -/
def itemA : InputTextureSet × List Bool := (⟨"A", [some "A_D.png"]⟩, [true, true])

/-- Texture set B with mask [false, true]. -/
def itemB : InputTextureSet × List Bool := (⟨"B", [some "B_D.png"]⟩, [false, true])

/-- Witness for C1 at the concrete two-set scenario. -/
theorem c1_compositor_later_set_wins_witness :
    ∃ st' out', combineSuffixLoop fsOverlay false 0 ([] ++ itemA :: [itemB])
        ⟨none, true, []⟩ = .ok st' ∧
      st'.output = some out' ∧
      out'.format = ⟨2, 1, ColorType.Rgb, BitDepth.Eight⟩ ∧
      ∀ p, p < 2 → ∃ b0,
        bytes_to_pixel [1, 1, 1, 9, 2, 2, 2, 9] (p * 4)
          ⟨2, 1, ColorType.Rgba, BitDepth.Eight⟩ = .ok b0 ∧
        bytes_to_pixel out'.data (p * 3) out'.format =
          .ok (conv (overlayList fsOverlay 0 [itemB] p b0) ColorType.Rgb) :=
  c1_compositor_later_set_wins fsOverlay false 0 [] itemA [itemB] "A_D.png"
    ⟨[1, 1, 1, 9, 2, 2, 2, 9], ⟨2, 1, ColorType.Rgba, BitDepth.Eight⟩⟩
    ColorType.Rgb
    (fun it hit => absurd hit (List.not_mem_nil it))
    rfl rfl rfl (Or.inr rfl) rfl (by decide) (by decide)
    (by
      intro it hit
      rw [List.mem_singleton] at hit
      subst hit
      exact ⟨rfl, rfl, rfl, Or.inr (Or.inr ⟨rfl, rfl⟩), rfl, rfl⟩)

/-- Well-formedness of a texture set's mask-source layer: slot 0 present and
decoding to an 8-bit RGBA image of nonzero size with a consistent buffer. -/
def MaskWf (fs : List (String × RawImage)) (set : InputTextureSet) : Prop :=
  match set.textures[0]? with
  | some (some f) =>
    match lookupFile fs f with
    | some img =>
      img.format.color_type = ColorType.Rgba ∧
      img.format.bit_depth = BitDepth.Eight ∧
      (img.format.width, img.format.height) ≠ (0, 0) ∧
      img.data.length = img.format.width * img.format.height * 4
    | none => False
  | _ => False

/-- The (width, height) of a set's decoded mask-source layer. -/
def maskSizeOf (fs : List (String × RawImage)) (set : InputTextureSet) :
    Nat × Nat :=
  match set.textures[0]? with
  | some (some f) =>
    match lookupFile fs f with
    | some img => (img.format.width, img.format.height)
    | none => (0, 0)
  | _ => (0, 0)

theorem checkAssumptions_of_wf (fs : List (String × RawImage)) :
    ∀ (sets : List InputTextureSet), (∀ set ∈ sets, MaskWf fs set) →
      checkAssumptions sets = true := by
  intro sets hwf
  unfold checkAssumptions
  rw [List.all_eq_true]
  intro set hset
  have hm := hwf set hset
  unfold MaskWf at hm
  cases htex : set.textures[0]? with
  | none => simp only [htex] at hm
  | some otex =>
    cases otex with
    | none => simp only [htex] at hm
    | some f =>
      cases hts : set.textures with
      | nil => rw [hts] at htex; simp at htex
      | cons o t =>
        rw [hts] at htex
        simp only [List.getElem?_cons_zero, Option.some.injEq] at htex
        rw [htex]

theorem maskPhase_mismatch (fs : List (String × RawImage)) :
    ∀ (sets : List InputTextureSet) (working : Nat × Nat),
      working ≠ (0, 0) →
      (∀ set ∈ sets, MaskWf fs set) →
      (∃ set ∈ sets, maskSizeOf fs set ≠ working) →
      ∃ f r r', r ≠ r' ∧
        maskPhase fs sets working = .error (.resolutionMismatch f r r')
  | [], working, _, _, hex => by
    obtain ⟨s, hs, _⟩ := hex
    exact absurd hs (List.not_mem_nil s)
  | set :: rest, working, hw, hwf, hex => by
    have hm := hwf set (List.mem_cons_self set rest)
    unfold MaskWf at hm
    cases htex : set.textures[0]? with
    | none => simp only [htex] at hm
    | some otex =>
      cases otex with
      | none => simp only [htex] at hm
      | some f =>
        cases hlk : lookupFile fs f with
        | none => simp only [htex, hlk] at hm
        | some img =>
          simp only [htex, hlk] at hm
          obtain ⟨hct, hbd, hsz, hlen⟩ := hm
          have hrd : read_image_from_file fs f = .ok img := by
            unfold read_image_from_file
            rw [hlk]
          have hsizeOf : maskSizeOf fs set =
              (img.format.width, img.format.height) := by
            unfold maskSizeOf
            simp only [htex, hlk]
          unfold maskPhase
          simp only [htex, hrd]
          rw [if_neg (by simp [hct]), if_neg hsz, if_neg hw]
          by_cases hne : (img.format.width, img.format.height) ≠ working
          · rw [if_pos hne]
            exact ⟨f, (img.format.width, img.format.height), working, hne, rfl⟩
          · rw [if_neg hne]
            obtain ⟨m, hcm, _, _⟩ := create_mask_spec img hct hbd hlen
            simp only [hcm]
            have hrestex : ∃ s ∈ rest, maskSizeOf fs s ≠ working := by
              obtain ⟨s, hs, hsne⟩ := hex
              rcases List.mem_cons.mp hs with h | h
              · exfalso
                rw [h, hsizeOf] at hsne
                push_neg at hne
                exact hsne hne
              · exact ⟨s, h, hsne⟩
            obtain ⟨f', r, r', hrr, hmp⟩ :=
              maskPhase_mismatch fs rest working hw
                (fun s hs => hwf s (List.mem_cons_of_mem set hs)) hrestex
            simp only [hmp]
            exact ⟨f', r, r', hrr, rfl⟩

/-- Claim C6: when every set's mask-source layer decodes cleanly but two sets
disagree on (width, height), the whole run fails during mask building with a
resolution-mismatch error naming both resolutions, and no output file is
produced: mask building runs to completion (or failure) before any
compositing output exists. -/
theorem c6_mask_resolution_mismatch (fs : List (String × RawImage))
    (input_sets : List InputTextureSet) (config : ProcessConfig)
    (hwf : ∀ set ∈ input_sets, MaskWf fs set)
    (hne : ∃ s1 ∈ input_sets, ∃ s2 ∈ input_sets,
      maskSizeOf fs s1 ≠ maskSizeOf fs s2) :
    (combine_texture_sets fs input_sets config).outputs = [] ∧
    ∃ f r r', r ≠ r' ∧
      (combine_texture_sets fs input_sets config).error =
        some (.resolutionMismatch f r r') := by
  cases input_sets with
  | nil =>
    obtain ⟨s, hs, _⟩ := hne
    exact absurd hs (List.not_mem_nil s)
  | cons set0 rest =>
    have hm0 := hwf set0 (List.mem_cons_self set0 rest)
    unfold MaskWf at hm0
    cases htex : set0.textures[0]? with
    | none => simp only [htex] at hm0
    | some otex =>
      cases otex with
      | none => simp only [htex] at hm0
      | some f0 =>
        cases hlk : lookupFile fs f0 with
        | none => simp only [htex, hlk] at hm0
        | some img0 =>
          simp only [htex, hlk] at hm0
          obtain ⟨hct0, hbd0, hsz0, hlen0⟩ := hm0
          have hrd : read_image_from_file fs f0 = .ok img0 := by
            unfold read_image_from_file
            rw [hlk]
          have hsizeOf0 : maskSizeOf fs set0 =
              (img0.format.width, img0.format.height) := by
            unfold maskSizeOf
            simp only [htex, hlk]
          have hrestex : ∃ s ∈ rest,
              maskSizeOf fs s ≠ (img0.format.width, img0.format.height) := by
            obtain ⟨s1, hs1, s2, hs2, hdiff⟩ := hne
            by_cases h1 : maskSizeOf fs s1 = (img0.format.width, img0.format.height)
            · have h2 : maskSizeOf fs s2 ≠
                  (img0.format.width, img0.format.height) := by
                intro h2
                rw [h1, h2] at hdiff
                exact hdiff rfl
              rcases List.mem_cons.mp hs2 with h | h
              · exfalso
                rw [h, hsizeOf0] at h2
                exact h2 rfl
              · exact ⟨s2, h, h2⟩
            · rcases List.mem_cons.mp hs1 with h | h
              · exfalso
                rw [h, hsizeOf0] at h1
                exact h1 rfl
              · exact ⟨s1, h, h1⟩
          obtain ⟨m0, hcm0, _, _⟩ := create_mask_spec img0 hct0 hbd0 hlen0
          obtain ⟨f', r, r', hrr, hmp⟩ :=
            maskPhase_mismatch fs rest (img0.format.width, img0.format.height)
              hsz0 (fun s hs => hwf s (List.mem_cons_of_mem set0 hs)) hrestex
          have hphase : maskPhase fs (set0 :: rest) (0, 0) =
              .error (.resolutionMismatch f' r r') := by
            unfold maskPhase
            simp only [htex, hrd]
            rw [if_neg (by simp [hct0]), if_neg hsz0]
            simp [hcm0, hmp]
          have hassum := checkAssumptions_of_wf fs (set0 :: rest) hwf
          have hrun : combine_texture_sets fs (set0 :: rest) config =
              ⟨[], [], some (.resolutionMismatch f' r r')⟩ := by
            unfold combine_texture_sets
            simp only [hassum, if_true, hphase]
          rw [hrun]
          exact ⟨rfl, f', r, r', hrr, rfl⟩

/-- Witness for C6: two sets whose mask sources are 1-by-1 and 2-by-1. -/
theorem c6_mask_resolution_mismatch_witness :
    (combine_texture_sets
        [("a.png", ⟨[0, 0, 0, 1], ⟨1, 1, ColorType.Rgba, BitDepth.Eight⟩⟩),
         ("b.png", ⟨[0, 0, 0, 1, 0, 0, 0, 1], ⟨2, 1, ColorType.Rgba, BitDepth.Eight⟩⟩)]
        [⟨"a", [some "a.png"]⟩, ⟨"b", [some "b.png"]⟩]
        ⟨false, ["_D"], false, "out", "Output"⟩).outputs = [] ∧
    ∃ f r r', r ≠ r' ∧
      (combine_texture_sets
        [("a.png", ⟨[0, 0, 0, 1], ⟨1, 1, ColorType.Rgba, BitDepth.Eight⟩⟩),
         ("b.png", ⟨[0, 0, 0, 1, 0, 0, 0, 1], ⟨2, 1, ColorType.Rgba, BitDepth.Eight⟩⟩)]
        [⟨"a", [some "a.png"]⟩, ⟨"b", [some "b.png"]⟩]
        ⟨false, ["_D"], false, "out", "Output"⟩).error =
        some (.resolutionMismatch f r r') :=
  c6_mask_resolution_mismatch _ _ _
    (by
      intro set hset
      rcases List.mem_cons.mp hset with h | h
      · subst h
        exact ⟨rfl, rfl, by decide, rfl⟩
      · rcases List.mem_singleton.mp h with rfl
        exact ⟨rfl, rfl, by decide, rfl⟩)
    ⟨⟨"a", [some "a.png"]⟩, by decide, ⟨"b", [some "b.png"]⟩, by decide, by decide⟩

/-! ### Grouping: splitting lemmas -/

theorem rsplitOnce_eq_none (c : Char) :
    ∀ l : List Char, rsplitOnce c l = none ↔ c ∉ l
  | [] => by simp [rsplitOnce]
  | x :: xs => by
    unfold rsplitOnce
    cases hr : rsplitOnce c xs with
    | some pq =>
      simp only [List.mem_cons]
      constructor
      · intro h
        exact Option.noConfusion h
      · intro h
        exfalso
        apply h
        right
        by_contra hmem
        rw [← rsplitOnce_eq_none c xs] at hmem
        rw [hmem] at hr
        exact Option.noConfusion hr
    | none =>
      by_cases hx : x = c
      · rw [if_pos hx]
        simp only [List.mem_cons]
        constructor
        · intro h
          exact Option.noConfusion h
        · intro h
          exact absurd (Or.inl hx.symm) h
      · rw [if_neg hx]
        simp only [List.mem_cons]
        constructor
        · intro _ h
          rcases h with h | h
          · exact hx h.symm
          · exact (rsplitOnce_eq_none c xs).mp hr h
        · intro _
          trivial

theorem rsplitOnce_eq_some (c : Char) :
    ∀ (l pre suf : List Char), rsplitOnce c l = some (pre, suf) →
      l = pre ++ c :: suf ∧ c ∉ suf
  | [], pre, suf, h => by simp [rsplitOnce] at h
  | x :: xs, pre, suf, h => by
    unfold rsplitOnce at h
    cases hr : rsplitOnce c xs with
    | some pq =>
      rw [hr] at h
      simp only [Option.some.injEq, Prod.mk.injEq] at h
      obtain ⟨hp, hs⟩ := h
      obtain ⟨h1, h2⟩ := rsplitOnce_eq_some c xs pq.1 pq.2 (by rw [hr])
      constructor
      · rw [← hp, ← hs]
        rw [List.cons_append]
        rw [← h1]
      · rw [← hs]
        exact h2
    | none =>
      rw [hr] at h
      by_cases hx : x = c
      · rw [if_pos hx] at h
        simp only [Option.some.injEq, Prod.mk.injEq] at h
        obtain ⟨hp, hs⟩ := h
        constructor
        · rw [← hp, ← hs, List.nil_append, hx]
        · rw [← hs]
          exact (rsplitOnce_eq_none c xs).mp hr
      · rw [if_neg hx] at h
        exact Option.noConfusion h

theorem rsplitOnce_last (c : Char) :
    ∀ (a b : List Char), c ∉ b → rsplitOnce c (a ++ c :: b) = some (a, b)
  | [], b, hb => by
    simp only [List.nil_append]
    unfold rsplitOnce
    rw [(rsplitOnce_eq_none c b).mpr hb]
    rw [if_pos rfl]
  | x :: a, b, hb => by
    simp only [List.cons_append]
    unfold rsplitOnce
    rw [rsplitOnce_last c a b hb]

/-! ### Grouping: sorted association-list lemmas -/

/-- The value stored for key `k` (first entry with that key). -/
def lookupGroup (m : List (String × List String)) (k : String) :
    Option (List String) :=
  (m.find? (fun e => e.1 == k)).map Prod.snd

/-- Sortedness invariant of the `BTreeMap` model: keys strictly increasing. -/
def keySorted (m : List (String × List String)) : Prop :=
  List.Pairwise (fun a b => a.1 < b.1) m

theorem lookupGroup_nil (k : String) : lookupGroup [] k = none := rfl

theorem lookupGroup_cons (x : String × List String)
    (m : List (String × List String)) (k : String) :
    lookupGroup (x :: m) k = if x.1 = k then some x.2 else lookupGroup m k := by
  unfold lookupGroup
  by_cases h : x.1 = k
  · rw [if_pos h, List.find?_cons_of_pos _ (by simpa using h)]
    rfl
  · rw [if_neg h, List.find?_cons_of_neg _ (by simpa using h)]

theorem mem_insert_key (k : String) (v : String) :
    ∀ (m : List (String × List String)) (a : String × List String),
      a ∈ btreeInsertAppend k v m → a.1 = k ∨ a.1 ∈ m.map Prod.fst
  | [], a, ha => by
    simp only [btreeInsertAppend, List.mem_singleton] at ha
    rw [ha]
    exact Or.inl rfl
  | (k', vs) :: rest, a, ha => by
    unfold btreeInsertAppend at ha
    by_cases h1 : k = k'
    · rw [if_pos h1] at ha
      rcases List.mem_cons.mp ha with h | h
      · rw [h, h1]
        exact Or.inl rfl
      · right
        simp only [List.map_cons, List.mem_cons]
        right
        exact List.mem_map_of_mem Prod.fst h
    · rw [if_neg h1] at ha
      by_cases h2 : k < k'
      · rw [if_pos h2] at ha
        rcases List.mem_cons.mp ha with h | h
        · rw [h]
          exact Or.inl rfl
        · right
          simpa using List.mem_map_of_mem Prod.fst h
      · rw [if_neg h2] at ha
        rcases List.mem_cons.mp ha with h | h
        · right
          rw [h]
          simp
        · rcases mem_insert_key k v rest a h with h3 | h3
          · exact Or.inl h3
          · right
            simp only [List.map_cons, List.mem_cons]
            exact Or.inr h3

theorem sorted_insert (k : String) (v : String) :
    ∀ m : List (String × List String), keySorted m →
      keySorted (btreeInsertAppend k v m)
  | [], _ => by
    unfold keySorted btreeInsertAppend
    exact List.pairwise_singleton _ _
  | (k', vs) :: rest, hs => by
    obtain ⟨hhead, hrest⟩ := List.pairwise_cons.mp hs
    unfold btreeInsertAppend
    by_cases h1 : k = k'
    · rw [if_pos h1]
      exact List.pairwise_cons.mpr ⟨hhead, hrest⟩
    · rw [if_neg h1]
      by_cases h2 : k < k'
      · rw [if_pos h2]
        refine List.pairwise_cons.mpr ⟨?_, hs⟩
        intro a ha
        rcases List.mem_cons.mp ha with h | h
        · rw [h]
          exact h2
        · exact lt_trans h2 (hhead a h)
      · rw [if_neg h2]
        have hk : k' < k := by
          rcases lt_trichotomy k k' with h | h | h
          · exact absurd h h2
          · exact absurd h h1
          · exact h
        refine List.pairwise_cons.mpr ⟨?_, sorted_insert k v rest hrest⟩
        intro a ha
        rcases mem_insert_key k v rest a ha with h | h
        · rw [h]
          exact hk
        · obtain ⟨b, hb, hfst⟩ := List.mem_map.mp h
          rw [← hfst]
          exact hhead b hb

theorem lookupGroup_none_of_all_gt (k : String) :
    ∀ m : List (String × List String), (∀ a ∈ m, k < a.1) →
      lookupGroup m k = none
  | [], _ => rfl
  | x :: rest, hall => by
    rw [lookupGroup_cons]
    rw [if_neg (fun h => absurd h (ne_of_gt (hall x (List.mem_cons_self x rest))))]
    exact lookupGroup_none_of_all_gt k rest
      (fun a ha => hall a (List.mem_cons_of_mem x ha))

theorem lookupGroup_insert (k' : String) (v : String) :
    ∀ (m : List (String × List String)) (k : String), keySorted m →
      lookupGroup (btreeInsertAppend k' v m) k =
        if k = k' then some ((lookupGroup m k).getD [] ++ [v])
        else lookupGroup m k
  | [], k, _ => by
    unfold btreeInsertAppend
    rw [lookupGroup_cons, lookupGroup_nil]
    by_cases h : k = k'
    · rw [if_pos h.symm, if_pos h]
      rfl
    · rw [if_neg (fun hh => h hh.symm), if_neg h]
  | (k0, vs0) :: rest, k, hs => by
    obtain ⟨hhead, hrest⟩ := List.pairwise_cons.mp hs
    unfold btreeInsertAppend
    by_cases h1 : k' = k0
    · rw [if_pos h1]
      rw [lookupGroup_cons, lookupGroup_cons]
      by_cases h2 : k = k'
      · have hk0 : k0 = k := by rw [← h1, h2]
        rw [if_pos hk0, if_pos h2, if_pos hk0]
        rfl
      · have hk0 : ¬(k0 = k) := fun h => h2 (by rw [← h, h1])
        rw [if_neg hk0, if_neg h2, if_neg hk0]
    · rw [if_neg h1]
      by_cases h2 : k' < k0
      · rw [if_pos h2]
        rw [lookupGroup_cons]
        by_cases h3 : k = k'
        · rw [if_pos (show (k', [v]).1 = k from h3.symm), if_pos h3]
          have hnone : lookupGroup ((k0, vs0) :: rest) k = none := by
            apply lookupGroup_none_of_all_gt
            intro a ha
            rcases List.mem_cons.mp ha with h | h
            · rw [h, h3]
              exact h2
            · rw [h3]
              exact lt_trans h2 (hhead a h)
          rw [hnone]
          rfl
        · rw [if_neg (show ¬((k', [v]).1 = k) from fun h => h3 h.symm), if_neg h3]
      · rw [if_neg h2]
        have hk : k0 < k' := by
          rcases lt_trichotomy k' k0 with h | h | h
          · exact absurd h h2
          · exact absurd h h1
          · exact h
        rw [lookupGroup_cons, lookupGroup_cons]
        by_cases h3 : k0 = k
        · have hkk' : ¬(k = k') := by
            rw [← h3]
            exact ne_of_lt hk
          rw [if_pos h3, if_neg hkk', if_pos h3]
        · rw [if_neg h3, if_neg h3]
          exact lookupGroup_insert k' v rest k hrest

/-- The loop body of `collect_and_group_files_by_name`. -/
def groupStep (map : List (String × List String)) (path : String) :
    List (String × List String) :=
  match keyOf path with
  | none => map
  | some pre => btreeInsertAppend pre path map

theorem collect_eq_foldl (entries : List String) :
    collect_and_group_files_by_name entries = entries.foldl groupStep [] := rfl

theorem foldl_groupStep_sorted :
    ∀ (l : List String) (m : List (String × List String)), keySorted m →
      keySorted (l.foldl groupStep m)
  | [], _, hm => hm
  | e :: l, m, hm => by
    rw [List.foldl_cons]
    apply foldl_groupStep_sorted l
    unfold groupStep
    cases hk : keyOf e with
    | none => exact hm
    | some k => exact sorted_insert k e m hm

/-- Appending new group members to an optional existing group. -/
def optAppend (o : Option (List String)) (fl : List String) :
    Option (List String) :=
  match o with
  | some vp => some (vp ++ fl)
  | none => if fl = [] then none else some fl

theorem optAppend_nil (o : Option (List String)) : optAppend o [] = o := by
  cases o with
  | none => rfl
  | some vp => simp [optAppend]

theorem foldl_groupStep_lookup :
    ∀ (l : List String) (m : List (String × List String)) (k : String),
      keySorted m →
      lookupGroup (l.foldl groupStep m) k =
        optAppend (lookupGroup m k) (l.filter (fun e => keyOf e == some k))
  | [], m, k, _ => by
    simp only [List.foldl_nil, List.filter_nil, optAppend_nil]
  | e :: l, m, k, hm => by
    rw [List.foldl_cons, List.filter_cons]
    cases hk : keyOf e with
    | none =>
      have hstep : groupStep m e = m := by
        unfold groupStep
        rw [hk]
      have hpred : ((none : Option String) == some k) = false := rfl
      rw [hstep, hpred]
      simp only [Bool.false_eq_true, if_false]
      exact foldl_groupStep_lookup l m k hm
    | some k0 =>
      have hstep : groupStep m e = btreeInsertAppend k0 e m := by
        unfold groupStep
        rw [hk]
      rw [hstep]
      rw [foldl_groupStep_lookup l (btreeInsertAppend k0 e m) k
        (sorted_insert k0 e m hm)]
      rw [lookupGroup_insert k0 e m k hm]
      by_cases h : k = k0
      · have hpred : ((some k0 : Option String) == some k) = true := by
          simp [h]
        rw [if_pos h, hpred]
        rw [if_pos rfl]
        cases hlo : lookupGroup m k with
        | some vp => simp [optAppend]
        | none => simp [optAppend]
      · have hpred : ((some k0 : Option String) == some k) = false :=
          beq_eq_false_iff_ne.mpr (fun hcon => h (Option.some.inj hcon).symm)
        rw [if_neg h, hpred]
        simp only [Bool.false_eq_true, if_false]

theorem collect_sorted (entries : List String) :
    keySorted (collect_and_group_files_by_name entries) := by
  rw [collect_eq_foldl]
  exact foldl_groupStep_sorted entries [] List.Pairwise.nil

theorem collect_lookup (entries : List String) (k : String) :
    lookupGroup (collect_and_group_files_by_name entries) k =
      if entries.filter (fun e => keyOf e == some k) = [] then none
      else some (entries.filter (fun e => keyOf e == some k)) := by
  rw [collect_eq_foldl,
    foldl_groupStep_lookup entries [] k List.Pairwise.nil]
  rfl

theorem mem_sorted_lookup :
    ∀ (m : List (String × List String)) (kv : String × List String),
      keySorted m → kv ∈ m → lookupGroup m kv.1 = some kv.2
  | [], kv, _, h => absurd h (List.not_mem_nil kv)
  | x :: rest, kv, hs, h => by
    obtain ⟨hhead, hrest⟩ := List.pairwise_cons.mp hs
    rw [lookupGroup_cons]
    rcases List.mem_cons.mp h with h | h
    · rw [h, if_pos rfl]
    · rw [if_neg (ne_of_lt (hhead kv h))]
      exact mem_sorted_lookup rest kv hrest h

theorem mem_collect_value (entries : List String) (kv : String × List String)
    (h : kv ∈ collect_and_group_files_by_name entries) :
    kv.2 = entries.filter (fun e => keyOf e == some kv.1) := by
  have h1 := mem_sorted_lookup _ kv (collect_sorted entries) h
  rw [collect_lookup] at h1
  by_cases hf : entries.filter (fun e => keyOf e == some kv.1) = []
  · rw [if_pos hf] at h1
    exact Option.noConfusion h1
  · rw [if_neg hf] at h1
    simp only [Option.some.injEq] at h1
    exact h1.symm

theorem keys_lookup_isSome :
    ∀ (m : List (String × List String)) (k : String),
      k ∈ m.map Prod.fst ↔ (lookupGroup m k).isSome
  | [], k => by simp [lookupGroup_nil]
  | x :: rest, k => by
    rw [lookupGroup_cons]
    simp only [List.map_cons, List.mem_cons]
    by_cases h : x.1 = k
    · rw [if_pos h]
      simp [h]
    · rw [if_neg h]
      constructor
      · intro hh
        rcases hh with hh | hh
        · exact absurd hh.symm h
        · exact (keys_lookup_isSome rest k).mp hh
      · intro hh
        exact Or.inr ((keys_lookup_isSome rest k).mpr hh)

theorem mem_keys_collect (entries : List String) (k : String) :
    k ∈ (collect_and_group_files_by_name entries).map Prod.fst ↔
      ∃ e ∈ entries, keyOf e = some k := by
  rw [keys_lookup_isSome, collect_lookup]
  constructor
  · intro h
    by_cases hf : entries.filter (fun e => keyOf e == some k) = []
    · rw [if_pos hf] at h
      simp at h
    · have := hf
      rw [List.filter_eq_nil_iff] at this
      push_neg at this
      obtain ⟨e, he, hp⟩ := this
      rw [beq_iff_eq] at hp
      exact ⟨e, he, hp⟩
  · rintro ⟨e, he, hk⟩
    have hf : entries.filter (fun e => keyOf e == some k) ≠ [] := by
      intro h0
      rw [List.filter_eq_nil_iff] at h0
      exact h0 e he (by simp [hk])
    rw [if_neg hf]
    rfl

theorem fileNameOf_no_slash (e : String) (hslash : '/' ∉ e.data) :
    fileNameOf e = e.data := by
  unfold fileNameOf
  rw [(rsplitOnce_eq_none '/' e.data).mpr hslash]

/-- A path with no separator whose grouping key is `k` and whose suffix token
is `s` is exactly the string `k ++ s ++ ".png"`: the decomposition into
(base name, suffix token, extension) is unique. -/
theorem canonical_of_key_suffix (e k s : String)
    (hslash : '/' ∉ e.data)
    (hkey : keyOf e = some k)
    (hsuf : suffix_from_filename e = some s) :
    e.data = k.data ++ s.data ++ ('.' :: ['p', 'n', 'g']) := by
  have hfn := fileNameOf_no_slash e hslash
  unfold keyOf at hkey
  by_cases hext : path_extension e ≠ some "png"
  · rw [if_pos hext] at hkey
    exact Option.noConfusion hkey
  · rw [if_neg hext] at hkey
    push_neg at hext
    unfold path_extension at hext
    rw [hfn] at hext
    cases hd : e.data with
    | nil =>
      rw [hd] at hext
      exact Option.noConfusion hext
    | cons h0 t =>
      rw [hd] at hext
      unfold splitStemExt at hext
      cases hsp : rsplitOnce '.' t with
      | none =>
        simp only [hsp, Option.map_none'] at hext
        exact Option.noConfusion hext
      | some pq =>
        simp only [hsp, Option.map_some', Option.some.injEq] at hext
        have hpng : pq.2 = ['p', 'n', 'g'] := by
          have := congrArg String.data hext
          exact this
        obtain ⟨ht, _⟩ := rsplitOnce_eq_some '.' t pq.1 pq.2 hsp
        have hstem : file_stem e = some (String.mk (h0 :: pq.1)) := by
          unfold file_stem
          rw [hfn, hd]
          unfold splitStemExt
          simp only [hsp]
        rw [hstem] at hkey
        unfold suffix_from_filename at hsuf
        rw [hstem] at hsuf
        cases hsp2 : rsplitOnce '_' (h0 :: pq.1) with
        | none =>
          simp only [hsp2] at hkey
          exact Option.noConfusion hkey
        | some pq2 =>
          simp only [hsp2, Option.some.injEq] at hkey hsuf
          obtain ⟨hstemEq, _⟩ :=
            rsplitOnce_eq_some '_' (h0 :: pq.1) pq2.1 pq2.2 hsp2
          have hkd : k.data = pq2.1 := by
            rw [← hkey]
          have hsd : s.data = '_' :: pq2.2 := by
            rw [← hsuf]
          calc h0 :: t = h0 :: (pq.1 ++ '.' :: pq.2) := by rw [← ht]
            _ = (h0 :: pq.1) ++ '.' :: pq.2 := rfl
            _ = (pq2.1 ++ '_' :: pq2.2) ++ '.' :: ['p', 'n', 'g'] := by
              rw [← hstemEq, ← hpng]
            _ = k.data ++ s.data ++ ('.' :: ['p', 'n', 'g']) := by
              rw [hkd, hsd]

theorem string_ext {a b : String} (h : a.data = b.data) : a = b :=
  congrArg String.mk h

theorem find?_eq_of_unique {α : Type _} [DecidableEq α] (l : List α)
    (p : α → Bool) (e0 : α) (h : ∀ x ∈ l, p x = true → x = e0) :
    l.find? p = if e0 ∈ l ∧ p e0 = true then some e0 else none := by
  by_cases hc : e0 ∈ l ∧ p e0 = true
  · rw [if_pos hc]
    cases hf : l.find? p with
    | none =>
      rw [List.find?_eq_none] at hf
      exact absurd hc.2 (hf e0 hc.1)
    | some x =>
      rw [h x (List.mem_of_find?_eq_some hf) (List.find?_some hf)]
  · rw [if_neg hc]
    cases hf : l.find? p with
    | none => rfl
    | some x =>
      exfalso
      have hx := h x (List.mem_of_find?_eq_some hf) (List.find?_some hf)
      exact hc ⟨hx ▸ List.mem_of_find?_eq_some hf, hx ▸ List.find?_some hf⟩

/-- The unique path string with grouping key `k`, suffix token `s` and
extension png. -/
def canonicalName (k s : String) : String :=
  String.mk (k.data ++ s.data ++ ('.' :: ['p', 'n', 'g']))

/-- The texture set that grouping produces for key `k`, described directly in
terms of the entry list. -/
def buildSet (entries : List String) (suffixes : List String) (k : String) :
    InputTextureSet :=
  { name := k,
    textures := suffixes.map fun suffix =>
      (entries.filter (fun e => keyOf e == some k)).find? fun filename =>
        decide (suffix_from_filename filename = some suffix) }

theorem gather_eq_keys_map (entries suffixes : List String) :
    gather_texture_sets_from_directory entries suffixes =
      ((collect_and_group_files_by_name entries).map Prod.fst).map
        (buildSet entries suffixes) := by
  unfold gather_texture_sets_from_directory
  rw [List.map_map]
  apply List.map_congr_left
  intro kv hkv
  unfold buildSet
  simp only [Function.comp_apply]
  rw [← mem_collect_value entries kv hkv]

theorem buildSet_perm_invariant (entries1 entries2 suffixes : List String)
    (hperm : entries1.Perm entries2) (hslash : ∀ e ∈ entries1, '/' ∉ e.data)
    (k : String) : buildSet entries1 suffixes k = buildSet entries2 suffixes k := by
  unfold buildSet
  simp only [InputTextureSet.mk.injEq, true_and]
  apply List.map_congr_left
  intro s _
  have huniq : ∀ (l : List String), (∀ e ∈ l, '/' ∉ e.data) →
      ∀ x ∈ l.filter (fun e => keyOf e == some k),
        (decide (suffix_from_filename x = some s)) = true → x = canonicalName k s := by
    intro l hl x hx hpx
    obtain ⟨hxl, hxk⟩ := List.mem_filter.mp hx
    rw [beq_iff_eq] at hxk
    rw [decide_eq_true_eq] at hpx
    exact string_ext (canonical_of_key_suffix x k s (hl x hxl) hxk hpx)
  have hslash2 : ∀ e ∈ entries2, '/' ∉ e.data :=
    fun e he => hslash e (hperm.mem_iff.mpr he)
  rw [find?_eq_of_unique _ _ (canonicalName k s) (huniq entries1 hslash),
    find?_eq_of_unique _ _ (canonicalName k s) (huniq entries2 hslash2)]
  have hmem : (canonicalName k s ∈
        entries1.filter (fun e => keyOf e == some k) ∧
      decide (suffix_from_filename (canonicalName k s) = some s) = true) ↔
      (canonicalName k s ∈
        entries2.filter (fun e => keyOf e == some k) ∧
      decide (suffix_from_filename (canonicalName k s) = some s) = true) := by
    rw [List.mem_filter, List.mem_filter, hperm.mem_iff]
  by_cases hc : canonicalName k s ∈
      entries1.filter (fun e => keyOf e == some k) ∧
      decide (suffix_from_filename (canonicalName k s) = some s) = true
  · rw [if_pos hc, if_pos (hmem.mp hc)]
  · rw [if_neg hc, if_neg (fun h => hc (hmem.mpr h))]

/-- Claim C7: grouping iterates base names in sorted key order, and the
gathered texture sets are invariant under any permutation of the directory
listing: repeated runs over the same file set assign the same file to the
same (baseName, suffix) slot and process the sets in sorted name order. -/
theorem c7_grouping_sorted_deterministic :
    (∀ (entries suffixes : List String),
      List.Pairwise (fun a b => a.name < b.name)
        (gather_texture_sets_from_directory entries suffixes)) ∧
    (∀ (entries1 entries2 suffixes : List String),
      entries1.Perm entries2 →
      (∀ e ∈ entries1, '/' ∉ e.data) →
      gather_texture_sets_from_directory entries1 suffixes =
        gather_texture_sets_from_directory entries2 suffixes) := by
  constructor
  · intro entries suffixes
    unfold gather_texture_sets_from_directory
    rw [List.pairwise_map]
    exact (collect_sorted entries).imp (fun h => h)
  · intro entries1 entries2 suffixes hperm hslash
    have hslash2 : ∀ e ∈ entries2, '/' ∉ e.data :=
      fun e he => hslash e (hperm.mem_iff.mpr he)
    have hK : (collect_and_group_files_by_name entries1).map Prod.fst =
        (collect_and_group_files_by_name entries2).map Prod.fst := by
      haveI : IsAntisymm String (· < ·) :=
        ⟨fun a b h1 h2 => absurd (lt_trans h1 h2) (lt_irrefl a)⟩
      have hs1 : List.Pairwise (· < ·)
          ((collect_and_group_files_by_name entries1).map Prod.fst) :=
        List.pairwise_map.mpr ((collect_sorted entries1).imp (fun h => h))
      have hs2 : List.Pairwise (· < ·)
          ((collect_and_group_files_by_name entries2).map Prod.fst) :=
        List.pairwise_map.mpr ((collect_sorted entries2).imp (fun h => h))
      have hn1 : ((collect_and_group_files_by_name entries1).map Prod.fst).Nodup :=
        hs1.imp (fun h => ne_of_lt h)
      have hn2 : ((collect_and_group_files_by_name entries2).map Prod.fst).Nodup :=
        hs2.imp (fun h => ne_of_lt h)
      have hpermK : ((collect_and_group_files_by_name entries1).map Prod.fst).Perm
          ((collect_and_group_files_by_name entries2).map Prod.fst) := by
        rw [List.perm_ext_iff_of_nodup hn1 hn2]
        intro k
        rw [mem_keys_collect, mem_keys_collect]
        constructor
        · rintro ⟨e, he, hk⟩
          exact ⟨e, hperm.mem_iff.mp he, hk⟩
        · rintro ⟨e, he, hk⟩
          exact ⟨e, hperm.mem_iff.mpr he, hk⟩
      exact List.eq_of_perm_of_sorted hpermK hs1 hs2
    rw [gather_eq_keys_map, gather_eq_keys_map, hK]
    apply List.map_congr_left
    intro k _
    exact buildSet_perm_invariant entries1 entries2 suffixes hperm hslash k

/-- Witness for C7: a concrete listing, its reversal, and sortedness. -/
theorem c7_grouping_sorted_deterministic_witness :
    List.Pairwise (fun a b => a.name < b.name)
      (gather_texture_sets_from_directory
        ["b_D.png", "a_D.png", "a_N.png"] ["_D", "_N"]) ∧
    gather_texture_sets_from_directory
        ["b_D.png", "a_D.png", "a_N.png"] ["_D", "_N"] =
      gather_texture_sets_from_directory
        ["a_N.png", "a_D.png", "b_D.png"] ["_D", "_N"] :=
  ⟨c7_grouping_sorted_deterministic.1 ["b_D.png", "a_D.png", "a_N.png"]
      ["_D", "_N"],
    c7_grouping_sorted_deterministic.2 ["b_D.png", "a_D.png", "a_N.png"]
      ["a_N.png", "a_D.png", "b_D.png"] ["_D", "_N"]
      (by decide) (by decide)⟩

/-- Claim C8: the file assigned to a (baseName, suffix) slot matches that base
name and suffix token, and is lexicographically least among all entries that
match the same pair (within one directory such a match is unique, so the
assigned file trivially equals every other match). Determinism across runs is
the permutation invariance proved for C7. -/
theorem c8_slot_lexicographically_first (entries suffixes : List String)
    (hslash : ∀ e ∈ entries, '/' ∉ e.data)
    (set : InputTextureSet)
    (hset : set ∈ gather_texture_sets_from_directory entries suffixes)
    (i : Nat) (f s : String)
    (hslot : set.textures[i]? = some (some f))
    (hsuf : suffixes[i]? = some s) :
    keyOf f = some set.name ∧ suffix_from_filename f = some s ∧
    ∀ g ∈ entries, keyOf g = some set.name →
      suffix_from_filename g = some s → f ≤ g := by
  unfold gather_texture_sets_from_directory at hset
  obtain ⟨kv, hkv, hbuild⟩ := List.mem_map.mp hset
  have hname : set.name = kv.1 := by
    rw [← hbuild]
  have htex : set.textures = suffixes.map fun suffix =>
      kv.2.find? fun filename =>
        decide (suffix_from_filename filename = some suffix) := by
    rw [← hbuild]
  rw [htex] at hslot
  rw [List.getElem?_map, hsuf] at hslot
  simp only [Option.map_some', Option.some.injEq] at hslot
  have hfmem := List.mem_of_find?_eq_some hslot
  have hfpred := List.find?_some hslot
  rw [decide_eq_true_eq] at hfpred
  have hval := mem_collect_value entries kv hkv
  rw [hval] at hfmem
  obtain ⟨hfent, hfkey⟩ := List.mem_filter.mp hfmem
  rw [beq_iff_eq] at hfkey
  refine ⟨by rw [hname]; exact hfkey, hfpred, ?_⟩
  intro g hg hgkey hgsuf
  have hfcan := canonical_of_key_suffix f kv.1 s (hslash f hfent) hfkey hfpred
  have hgcan := canonical_of_key_suffix g kv.1 s (hslash g hg)
    (by rw [← hname]; exact hgkey) hgsuf
  have : f = g := string_ext (by rw [hfcan, hgcan])
  rw [this]


/-- Witness for C8: a listing containing the assigned file and an unrelated
other set; the predicate instantiated at the "a" set's `_D` slot. -/
theorem c8_slot_lexicographically_first_witness :
    keyOf "a_D.png" = some (InputTextureSet.mk "a"
        [some "a_D.png", some "a_N.png"]).name ∧
    suffix_from_filename "a_D.png" = some "_D" ∧
    ∀ g ∈ ["b_D.png", "a_D.png", "a_N.png"],
      keyOf g = some (InputTextureSet.mk "a"
        [some "a_D.png", some "a_N.png"]).name →
      suffix_from_filename g = some "_D" → "a_D.png" ≤ g := by
  have hab : ("a" : String) < "b" := by
    rw [String.lt_iff_toList_lt]; decide
  have h1 : btreeInsertAppend "a" "a_D.png" [("b", ["b_D.png"])]
      = [("a", ["a_D.png"]), ("b", ["b_D.png"])] := by
    rw [btreeInsertAppend, if_neg (by decide), if_pos hab]
  have hcol : collect_and_group_files_by_name ["b_D.png", "a_D.png", "a_N.png"]
      = [("a", ["a_D.png", "a_N.png"]), ("b", ["b_D.png"])] := by
    show btreeInsertAppend "a" "a_N.png"
        (btreeInsertAppend "a" "a_D.png" [("b", ["b_D.png"])])
      = [("a", ["a_D.png", "a_N.png"]), ("b", ["b_D.png"])]
    rw [h1]
    rfl
  have hmem : (InputTextureSet.mk "a" [some "a_D.png", some "a_N.png"]) ∈
      gather_texture_sets_from_directory
        ["b_D.png", "a_D.png", "a_N.png"] ["_D", "_N"] := by
    unfold gather_texture_sets_from_directory
    rw [hcol]
    exact List.mem_cons_self _ _
  exact c8_slot_lexicographically_first ["b_D.png", "a_D.png", "a_N.png"]
    ["_D", "_N"] (by decide)
    ⟨"a", [some "a_D.png", some "a_N.png"]⟩ hmem
    0 "a_D.png" "_D" rfl rfl

theorem keyOf_eq_none (e : String)
    (h : path_extension e ≠ some "png" ∨
      ∃ stem, file_stem e = some stem ∧ '_' ∉ stem.data) :
    keyOf e = none := by
  unfold keyOf
  by_cases hext : path_extension e ≠ some "png"
  · rw [if_pos hext]
  · rw [if_neg hext]
    rcases h with h | ⟨stem, hst, hu⟩
    · exact absurd h hext
    · simp only [hst]
      rw [(rsplitOnce_eq_none '_' stem.data).mpr hu]

theorem collect_ignores (l1 l2 : List String) (e : String)
    (h : keyOf e = none) :
    collect_and_group_files_by_name (l1 ++ e :: l2) =
      collect_and_group_files_by_name (l1 ++ l2) := by
  unfold collect_and_group_files_by_name
  rw [List.foldl_append, List.foldl_append, List.foldl_cons]
  simp only [h]

theorem splitStemExt_fst_not_mem (c : Char) (l : List Char) (h : c ∉ l) :
    c ∉ (splitStemExt l).1 := by
  cases l with
  | nil => simp [splitStemExt]
  | cons x t =>
    unfold splitStemExt
    cases hr : rsplitOnce '.' t with
    | none =>
      simp only [hr]
      simpa using h
    | some pq =>
      obtain ⟨pre, suf⟩ := pq
      simp only [hr]
      obtain ⟨ht, -⟩ := rsplitOnce_eq_some '.' t pre suf hr
      simp only [List.mem_cons, not_or] at h
      simp only [List.mem_cons, not_or]
      refine ⟨h.1, fun hc => h.2 ?_⟩
      rw [ht]
      exact List.mem_append.mpr (Or.inl hc)

theorem splitStemExt_fst_ne_nil (l : List Char) (h : l ≠ []) :
    (splitStemExt l).1 ≠ [] := by
  cases l with
  | nil => exact absurd rfl h
  | cons x t =>
    unfold splitStemExt
    cases hr : rsplitOnce '.' t with
    | none => simp [hr]
    | some pq =>
      obtain ⟨pre, suf⟩ := pq
      simp [hr]

theorem natDigitsAux_mem (fuel : Nat) :
    ∀ (n : Nat) (acc : List Char), ∀ ch ∈ natDigitsAux fuel n acc,
      ch ∈ acc ∨ ∃ d, d < 10 ∧ ch = Char.ofNat (48 + d) := by
  induction fuel with
  | zero => intro n acc ch h; exact Or.inl h
  | succ fuel ih =>
    intro n acc ch h
    simp only [natDigitsAux] at h
    by_cases hn : n < 10
    · rw [if_pos hn] at h
      rcases List.mem_cons.mp h with h | h
      · exact Or.inr ⟨n % 10, Nat.mod_lt _ (by omega), h⟩
      · exact Or.inl h
    · rw [if_neg hn] at h
      rcases ih (n / 10) _ ch h with h | h
      · rcases List.mem_cons.mp h with h | h
        · exact Or.inr ⟨n % 10, Nat.mod_lt _ (by omega), h⟩
        · exact Or.inl h
      · exact Or.inr h

theorem digit_char_ne_slash (d : Nat) (hd : d < 10) :
    Char.ofNat (48 + d) ≠ '/' := by
  interval_cases d <;> decide

theorem slash_not_mem_natToStr (n : Nat) : '/' ∉ (natToStr n).data := by
  intro h
  rcases natDigitsAux_mem (n + 1) n [] '/' h with h | ⟨d, hd, h⟩
  · exact List.not_mem_nil _ h
  · exact digit_char_ne_slash d hd h.symm

theorem path_extension_dot_png (p : String) (D A0 : List Char)
    (hp : p.data = D ++ '/' :: (A0 ++ '.' :: ['p', 'n', 'g']))
    (hA : '/' ∉ A0) (hne : A0 ≠ []) :
    path_extension p = some "png" := by
  obtain ⟨h0, A0t, rfl⟩ : ∃ h0 t0, A0 = h0 :: t0 := by
    cases A0 with
    | nil => exact absurd rfl hne
    | cons a b => exact ⟨a, b, rfl⟩
  unfold path_extension fileNameOf
  rw [hp]
  have hslash : '/' ∉ (h0 :: A0t) ++ '.' :: ['p', 'n', 'g'] := by
    intro hmem
    rcases List.mem_append.mp hmem with hmem | hmem
    · exact hA hmem
    · revert hmem; decide
  rw [rsplitOnce_last '/' D _ hslash]
  simp only [List.cons_append, splitStemExt,
    rsplitOnce_last '.' A0t ['p', 'n', 'g'] (by decide), Option.map_some']

theorem path_extension_mk_output_path (dir name suffix : String)
    (hne : (name ++ suffix).data ≠ []) (hs : '/' ∉ (name ++ suffix).data) :
    path_extension (mk_output_path dir name suffix) = some "png" := by
  apply path_extension_dot_png _ dir.data
    (splitStemExt (name ++ suffix).data).1
  · show (dir ++ "/" ++ set_extension_png (name ++ suffix)).data = _
    unfold set_extension_png
    simp [String.data_append]
  · exact splitStemExt_fst_not_mem _ _ hs
  · exact splitStemExt_fst_ne_nil _ hne

theorem path_extension_mk_mask_path (dir : String) (i : Nat) :
    path_extension (mk_mask_path dir i) = some "png" := by
  apply path_extension_dot_png _ dir.data
    (['m', 'a', 's', 'k'] ++ (natToStr i).data)
  · show (dir ++ "/mask" ++ natToStr i ++ ".png").data = _
    simp [String.data_append]
  · intro h
    rcases List.mem_append.mp h with h | h
    · revert h; decide
    · exact slash_not_mem_natToStr i h
  · simp

theorem suffixLoop_outputs_shape (fs : List (String × RawImage))
    (config : ProcessConfig) (items : List (InputTextureSet × List Bool)) :
    ∀ (sufs : List String) (idx : Nat) (p : String) (img : RawImage),
      (p, img) ∈ (suffixLoop fs config items sufs idx).1 →
      ∃ s ∈ sufs, p = mk_output_path config.output_directory
        config.output_texture_name s
  | [], _, p, img, h => by simp [suffixLoop] at h
  | suffix :: rest, idx, p, img, h => by
    unfold suffixLoop at h
    cases hc : combineSuffixLoop fs config.keep_mask_alpha idx items
        ⟨none, true, []⟩ with
    | error e =>
      simp only [hc] at h
      simp at h
    | ok st =>
      simp only [hc] at h
      rcases hrec : suffixLoop fs config items rest (idx + 1) with
        ⟨outs2, warns2, err2⟩
      rw [hrec] at h
      cases ho : st.output with
      | none =>
        simp only [ho, List.nil_append] at h
        obtain ⟨s, hmem, hp⟩ :=
          suffixLoop_outputs_shape fs config items rest (idx + 1) p img
            (by rw [hrec]; exact h)
        exact ⟨s, List.mem_cons_of_mem _ hmem, hp⟩
      | some image =>
        simp only [ho, List.cons_append, List.nil_append] at h
        rcases List.mem_cons.mp h with h | h
        · exact ⟨suffix, List.mem_cons_self _ _, congrArg Prod.fst h⟩
        · obtain ⟨s, hmem, hp⟩ :=
            suffixLoop_outputs_shape fs config items rest (idx + 1) p img
              (by rw [hrec]; exact h)
          exact ⟨s, List.mem_cons_of_mem _ hmem, hp⟩

theorem maskDumpLoop_outputs_shape (dir : String) (wr : Nat × Nat) :
    ∀ (masks : List (List Bool)) (i : Nat) (outs : List (String × RawImage)),
      maskDumpLoop dir wr masks i = .ok outs →
      ∀ p img, (p, img) ∈ outs → ∃ j, p = mk_mask_path dir j
  | [], i, outs, h => by
    simp only [maskDumpLoop] at h
    obtain rfl := (Except.ok.injEq .. ▸ h :)
    intro p img hm
    simp at hm
  | mask :: rest, i, outs, h => by
    unfold maskDumpLoop at h
    cases hrm : renderMask wr mask with
    | error e =>
      simp only [hrm] at h
      exact Except.noConfusion h
    | ok img0 =>
      simp only [hrm] at h
      cases hrec : maskDumpLoop dir wr rest (i + 1) with
      | error e =>
        simp only [hrec] at h
        exact Except.noConfusion h
      | ok outs2 =>
        simp only [hrec, Except.ok.injEq] at h
        subst h
        intro p img hm
        rcases List.mem_cons.mp hm with hm | hm
        · exact ⟨i, congrArg Prod.fst hm⟩
        · exact maskDumpLoop_outputs_shape dir wr rest (i + 1) outs2 hrec p img hm

/-- Claim C10: (1) grouping considers only directory entries whose extension
is exactly `"png"` and whose stem contains an underscore — any other entry is
silently ignored and belongs to no texture set; (2) every combined output
file (suffix outputs and debug mask dumps alike) is written with extension
`"png"`, regardless of the configured output name, provided the configured
name-plus-suffix is a nonempty plain file name. -/
theorem c10_png_extension_filtering (l1 l2 : List String) (e : String)
    (sufs : List String)
    (hskip : path_extension e ≠ some "png" ∨
      ∃ stem, file_stem e = some stem ∧ '_' ∉ stem.data)
    (fs : List (String × RawImage)) (sets : List InputTextureSet)
    (cfg : ProcessConfig)
    (hname : ∀ s ∈ cfg.suffixes, (cfg.output_texture_name ++ s).data ≠ [] ∧
      '/' ∉ (cfg.output_texture_name ++ s).data) :
    gather_texture_sets_from_directory (l1 ++ e :: l2) sufs =
      gather_texture_sets_from_directory (l1 ++ l2) sufs ∧
    ∀ p img, (p, img) ∈ (combine_texture_sets fs sets cfg).outputs →
      path_extension p = some "png" := by
  constructor
  · unfold gather_texture_sets_from_directory
    rw [collect_ignores l1 l2 e (keyOf_eq_none e hskip)]
  · intro p img hmem
    unfold combine_texture_sets at hmem
    by_cases hck : checkAssumptions sets
    · rw [if_pos hck] at hmem
      cases hmp : maskPhase fs sets (0, 0) with
      | error err =>
        simp only [hmp] at hmem
        simp at hmem
      | ok mw =>
        obtain ⟨set_masks, working_res⟩ := mw
        simp only [hmp] at hmem
        cases hdump : (if cfg.output_masks then
            maskDumpLoop cfg.output_directory working_res set_masks 0
          else .ok []) with
        | error err =>
          simp only [hdump] at hmem
          simp at hmem
        | ok dumps =>
          simp only [hdump] at hmem
          rcases hsl : suffixLoop fs cfg (sets.zip set_masks)
              cfg.suffixes 0 with ⟨outs, warns, err⟩
          rw [hsl] at hmem
          simp only [List.mem_append] at hmem
          rcases hmem with hmem | hmem
          · have hdumps : ∀ q qimg, (q, qimg) ∈ dumps →
                ∃ j, q = mk_mask_path cfg.output_directory j := by
              by_cases hom : cfg.output_masks
              · rw [if_pos hom] at hdump
                exact maskDumpLoop_outputs_shape cfg.output_directory
                  working_res set_masks 0 dumps hdump
              · rw [if_neg hom] at hdump
                obtain rfl : ([] : List (String × RawImage)) = dumps :=
                  Except.ok.inj hdump
                intro q qimg hq
                simp at hq
            obtain ⟨j, rfl⟩ := hdumps p img hmem
            exact path_extension_mk_mask_path cfg.output_directory j
          · obtain ⟨s, hsm, rfl⟩ := suffixLoop_outputs_shape fs cfg
              (sets.zip set_masks) cfg.suffixes 0 p img
              (by rw [hsl]; exact hmem)
            exact path_extension_mk_output_path cfg.output_directory
              cfg.output_texture_name s (hname s hsm).1 (hname s hsm).2
    · rw [if_neg hck] at hmem
      simp at hmem

/-- Witness for C10: a `.txt` entry is ignored by grouping, and a concrete
one-set run writes its output as `out/Out_D.png`, whose extension is `png`. -/
theorem c10_png_extension_filtering_witness :
    gather_texture_sets_from_directory ["readme.txt"] ["_D"] =
      gather_texture_sets_from_directory [] ["_D"] ∧
    path_extension "out/Out_D.png" = some "png" :=
  ⟨(c10_png_extension_filtering [] [] "readme.txt" ["_D"]
      (Or.inl (by decide))
      [("a_D.png", ⟨[1, 2, 3, 4], ⟨1, 1, ColorType.Rgba, BitDepth.Eight⟩⟩)]
      [⟨"a", [some "a_D.png"]⟩]
      ⟨true, ["_D"], false, "out", "Out"⟩ (by decide)).1,
    (c10_png_extension_filtering [] [] "readme.txt" ["_D"]
      (Or.inl (by decide))
      [("a_D.png", ⟨[1, 2, 3, 4], ⟨1, 1, ColorType.Rgba, BitDepth.Eight⟩⟩)]
      [⟨"a", [some "a_D.png"]⟩]
      ⟨true, ["_D"], false, "out", "Out"⟩ (by decide)).2
      "out/Out_D.png"
      ⟨[1, 2, 3, 4], ⟨1, 1, ColorType.Rgba, BitDepth.Eight⟩⟩
      (by decide)⟩

end TextureStacker
